import Mathlib

/-!
Shallow embedding of the pyDictH5 container model and its HDF5 serialization
engine (src/base.py and src/io.py), used to settle the claims of the
specification.

Modelling conventions:
* Python dicts are insertion-ordered association lists with string keys.
* numpy arrays are modelled rank-1: a dtype string plus the list of values
  along axis 0 (the only axis any modelled operation touches).  Numeric and
  boolean cell values are modelled as `Int`.
* Opaque Python values (the payloads of object arrays and of unencodable
  scalars) are modelled by `Obj`: a type name, a payload, and a flag telling
  whether `pickle.dumps` succeeds on the value.  Structural equality of `Obj`
  models Python `==` on picklable domain values (pickling preserves structure).
* Pickled byte strings are modelled by the inductive `Bytes`; `Bytes.empty`
  is the empty byte string, which is never the output of `pickle.dumps`.
* Exceptions become `Except Err`; `Err.reservedName` is the KeyError raised
  by `data.__setitem__` for a key colliding with an attribute name (the
  spec's `ReservedNameError`), `Err.keyError` any other KeyError (the spec's
  `KeyNotFound`).
-/

namespace PyDictH5

/-- An opaque (non-container, non-array, non-scalar-encodable) Python value.
`picklable` records whether `pickle.dumps` succeeds on it. -/
structure Obj where
  tyName : String
  payload : Nat
  picklable : Bool
deriving DecidableEq, Repr

/-- A native scalar that the HDF5 store can hold in a zero-shape dataset
(numbers, strings, booleans). -/
inductive NScal where
  | i (n : Int)
  | s (s : String)
  | b (b : Bool)
deriving DecidableEq, Repr

/-- Python `==` on native scalars (`True == 1` holds in Python). -/
def pyEqScal : NScal → NScal → Bool
  | .i a, .i b => decide (a = b)
  | .s a, .s b => decide (a = b)
  | .b a, .b b => decide (a = b)
  | .b a, .i n => decide ((if a then (1 : Int) else 0) = n)
  | .i n, .b a => decide ((if a then (1 : Int) else 0) = n)
  | _, _ => false

/-- The concrete container subclasses defined in src/base.py. -/
inductive KCls where
  | data
  | SpecData
  | flat
  | TimeBased
  | tabular
  | geodat
deriving DecidableEq, Repr

/-- The class name as recorded in a pickled class identity. -/
def KCls.name : KCls → String
  | .data => "data"
  | .SpecData => "SpecData"
  | .flat => "flat"
  | .TimeBased => "TimeBased"
  | .tabular => "tabular"
  | .geodat => "geodat"

/-- Whether the class is `flat` or one of its subclasses (`tabular`,
`geodat`), i.e. has the `append`/`subset` methods (src/base.py:319,473,505). -/
def KCls.flatFamily : KCls → Bool
  | .flat => true
  | .tabular => true
  | .geodat => true
  | _ => false

/-- One cell of a numpy object array: either Python `None` or an opaque
value. -/
inductive CellV where
  | pyNone
  | obj (o : Obj)
deriving DecidableEq, Repr

/-- Python types that a pickled class identity can refer to in this model. -/
inductive PyType where
  | ndarray
  | container (k : KCls)
  | pydict
  | builtin (nm : String)
  | objCls (nm : String)
deriving DecidableEq, Repr

/-- Byte strings as they appear in the store: the empty string, or the
protocol-0 pickle of a class (module path and class name), of an opaque
value, or of `None`.  `pickle.dumps` never produces `Bytes.empty`. -/
inductive Bytes where
  | empty
  | clsPkl (mod : List String) (name : String)
  | objPkl (o : Obj)
  | nonePkl
deriving DecidableEq, Repr

/-- HDF5 attribute values: strings or byte strings. -/
inductive AttrVal where
  | str (s : String)
  | bytes (b : Bytes)
deriving DecidableEq, Repr

/-- The exceptions of the embedding.  `reservedName` is the KeyError of
src/base.py:161 (the spec's ReservedNameError); `keyError` any other
KeyError (the spec's KeyNotFound). -/
inductive Err where
  | keyError
  | reservedName
  | typeError
  | attributeError
  | valueError
  | pickleError
  | importError
  | unpicklingError
deriving DecidableEq, Repr

/-- Index specifications accepted by `flat.subset`.  Only the slice form is
modelled (integer and index-array forms change the rank or are substrate
numpy behaviour no claim exercises). -/
inductive Idx where
  | islice (start stop : Nat)
deriving DecidableEq, Repr

/-- numpy basic slicing `vals[start:stop]` on axis 0 (clamping, as in
Python, for out-of-range bounds; negative bounds are not modelled). -/
def applySlice (i : Idx) (vals : List α) : List α :=
  match i with
  | .islice a b => (vals.drop a).take (b - a)

mutual
/-- A node of the container model: a leaf (array, object array, native
scalar, opaque scalar) or a `data` instance (`group`).  A group carries its
concrete subclass, its dict entries, and its instance-`__dict__` attributes
(`hidden`) which hold the transient underscore-prefixed values set by
`data.__setattr__` (src/base.py:256-263).  An array whose dtype string
starts with "datetime64" is a temporal array (src/io.py:38). -/
inductive Node where
  | arr (dtype : String) (vals : List Int)
  | objArr (cells : List CellV)
  | scal (v : NScal)
  | opq (o : Obj)
  | group (cls : KCls) (entries : NEntries) (hidden : NEntries)

/-- Insertion-ordered association list of string keys to nodes (a Python
dict). -/
inductive NEntries where
  | nil
  | cons (nm : String) (v : Node) (rest : NEntries)
end

namespace NEntries

/-- First-match lookup (Python dict lookup; keys are unique in dicts). -/
def lookupE : NEntries → String → Option Node
  | .nil, _ => none
  | .cons nm v rest, k => if nm = k then some v else lookupE rest k

/-- The key list, in insertion order. -/
def keysE : NEntries → List String
  | .nil => []
  | .cons nm _ rest => nm :: keysE rest

/-- `d[k] = v` on a raw dict: overwrite in place if the key exists,
otherwise append (Python dict insertion-order semantics). -/
def upsertE : NEntries → String → Node → NEntries
  | .nil, k, v => .cons k v .nil
  | .cons nm w rest, k, v =>
      if nm = k then .cons nm v rest else .cons nm w (upsertE rest k v)

/-- List append on entries. -/
def appE : NEntries → NEntries → NEntries
  | .nil, es => es
  | .cons nm v rest, es => .cons nm v (appE rest es)

end NEntries

export NEntries (lookupE keysE upsertE appE)

/-- py2 dict attribute names (a representative subset of `dir` on a dict). -/
def dictAttrs : List String :=
  ["clear", "copy", "fromkeys", "get", "has_key", "items", "iteritems",
   "iterkeys", "itervalues", "keys", "pop", "popitem", "setdefault",
   "update", "values", "viewitems", "viewkeys", "viewvalues"]

/-- Methods added by `data` (src/base.py:125-307). -/
def dataAttrs : List String := ["iter_subgroups", "iter_data", "to_hdf5"]

/-- Methods added by `flat` (src/base.py:319-428). -/
def flatAttrs : List String := ["empty_like", "append", "subset"]

/-- Methods added by `tabular` (src/base.py:473-502). -/
def tabularAttrs : List String := ["to_dataframe", "to_excel"]

/-- Methods added by `geodat` (src/base.py:505-524). -/
def geodatAttrs : List String := ["llrange"]

/-- `dir` on an instance of the given container class (representative:
double-underscore names are omitted; no modelled key uses them). -/
def clsDir : KCls → List String
  | .data => dictAttrs ++ dataAttrs
  | .SpecData => dictAttrs ++ dataAttrs
  | .flat => dictAttrs ++ dataAttrs ++ flatAttrs
  | .TimeBased => dictAttrs ++ dataAttrs
  | .tabular => dictAttrs ++ dataAttrs ++ flatAttrs ++ tabularAttrs
  | .geodat => dictAttrs ++ dataAttrs ++ flatAttrs ++ geodatAttrs

/-- Every attribute name reserved on any modelled container class. -/
def allReserved : List String :=
  dictAttrs ++ dataAttrs ++ flatAttrs ++ tabularAttrs ++ geodatAttrs

/-- Representative `dir` of a numpy array (attribute subset). -/
def ndarrayAttrs : List String :=
  ["T", "base", "ctypes", "dtype", "flags", "flat", "imag", "real",
   "shape", "size", "strides"]

/-- `dir(x)` for the value `x`: class attributes plus, for container
instances, the instance `__dict__` (the transient attributes).  Scalar
attribute names are omitted (representative; no claim uses them). -/
def dirOfAny : Node → List String
  | .group k _ hid => clsDir k ++ keysE hid
  | .arr _ _ => ndarrayAttrs
  | .objArr _ => ndarrayAttrs
  | .scal _ => []
  | .opq _ => []

/-- Raw `dict.__getitem__(g, k)` (src/base.py:140,147): direct dict lookup,
KeyError when missing, TypeError when the receiver is not a dict. -/
def dictGetE : Node → String → Except Err Node
  | .group _ es _, k =>
      match lookupE es k with
      | some v => .ok v
      | none => .error .keyError
  | _, _ => .error .typeError

/-- Raw `dict.__setitem__(g, k, v)` (src/base.py:163): direct dict update,
TypeError when the receiver is not a dict. -/
def dictSetRaw : Node → String → Node → Except Err Node
  | .group c es hid, k, v => .ok (.group c (upsertE es k v) hid)
  | _, _, _ => .error .typeError

/-- Python `c in s` on a string (computable model of `String.contains`). -/
def strContains (s : String) (c : Char) : Bool :=
  s.data.contains c

/-- Python `s.startswith(p)` (computable model of `String.startsWith`). -/
def strStartsWith (s p : String) : Bool :=
  p.data.isPrefixOf s.data

/-- Split a character list on `'.'` (the separator occurs between the
produced chunks, as in Python `s.split('.')`). -/
def splitDotCh : List Char → List (List Char)
  | [] => [[]]
  | c :: rest =>
      if c = '.' then [] :: splitDotCh rest
      else
        match splitDotCh rest with
        | [] => [[c]]
        | g :: gs => (c :: g) :: gs

/-- Python `s.split('.')` (computable model of `String.splitOn "."`). -/
def splitDot (s : String) : List String :=
  (splitDotCh s.data).map (fun l => { data := l })

/-- Rejoin path segments with the separator (`'.'.join(parts)`). -/
def joinDot : List String → String
  | [] => ""
  | [x] => x
  | x :: rest => x ++ "." ++ joinDot rest

/-- Python `s.rsplit('.', 1)` when `'.' in s`, else `none`
(src/base.py:155-156). -/
def rsplitDot (s : String) : Option (String × String) :=
  if strContains s '.' then
    match (splitDot s).reverse with
    | [] => none
    | [_] => none
    | last :: restRev => some (joinDot restRev.reverse, last)
  else none

/-- The descent loop of `data.__getitem__` (src/base.py:145-148):
`tmp = self; for ky in indx.split('.'): tmp = dict.__getitem__(tmp, ky)`.
Also records the sequence of keys actually traversed (the access path),
which `setItemF` uses to model in-place mutation of the located object. -/
def descendAcc : Node → List String → List String → Except Err (List String × Node)
  | tmp, [], path => .ok (path, tmp)
  | tmp, ky :: rest, path =>
      match dictGetE tmp ky with
      | .ok v => descendAcc v rest (path ++ [ky])
      | .error e => .error e

/-- `data.__getitem__` (src/base.py:138-148), additionally returning the
access path of the value: with no separator, a direct dict lookup; with a
separator, first a literal whole-key lookup (only KeyError triggers the
fallback), then the split-and-descend loop. -/
def resolveAccess (g : Node) (indx : String) : Except Err (List String × Node) :=
  if ¬ strContains indx '.' then
    match dictGetE g indx with
    | .ok v => .ok ([indx], v)
    | .error e => .error e
  else
    match dictGetE g indx with
    | .ok v => .ok ([indx], v)
    | .error .keyError => descendAcc g (splitDot indx) []
    | .error e => .error e

/-- `data.__getitem__` (src/base.py:138-148). -/
def getItemF (g : Node) (indx : String) : Except Err Node :=
  match resolveAccess g indx with
  | .ok (_, v) => .ok v
  | .error e => .error e

/-- Replace the value reached by following `path` and then key `leaf`,
modelling the in-place `dict.__setitem__(tmp, indx, val)` of
src/base.py:163 on the object located by the access path. -/
def updateAt : Node → List String → String → Node → Except Err Node
  | g, [], leaf, v => dictSetRaw g leaf v
  | g, k :: rest, leaf, v =>
      match g with
      | .group c es hid =>
          match lookupE es k with
          | some child =>
              match updateAt child rest leaf v with
              | .ok child' => .ok (.group c (upsertE es k child') hid)
              | .error e => .error e
          | none => .error .keyError
      | _ => .error .typeError

/-- The target object and leaf key that `data.__setitem__` resolves a path
to (src/base.py:155-159): `tmp = self` for an undotted path, otherwise
`tmp = self[grp]` for the rsplit ancestor path. -/
def setTarget (g : Node) (indx : String) : Except Err (List String × String × Node) :=
  match rsplitDot indx with
  | none => .ok ([], indx, g)
  | some (grp, leaf) =>
      match resolveAccess g grp with
      | .ok (path, tmp) => .ok (path, leaf, tmp)
      | .error e => .error e

/-- `data.__setitem__` (src/base.py:150-163): resolve the target, reject a
leaf key that collides with an attribute name (`if indx in dir(tmp)`,
raising the KeyError modelled as `Err.reservedName`), then write through
`dict.__setitem__`. -/
def setItemF (g : Node) (indx : String) (v : Node) : Except Err Node :=
  match setTarget g indx with
  | .ok (path, leaf, tmp) =>
      if leaf ∈ dirOfAny tmp then .error .reservedName
      else updateAt g path leaf v
  | .error e => .error e

/-- `data.__contains__` (src/base.py:165-170): try `self[key]`, catching
only KeyError. -/
def containsF (g : Node) (k : String) : Except Err Bool :=
  match getItemF g k with
  | .ok _ => .ok true
  | .error .keyError => .ok false
  | .error e => .error e

/-- `data.__setattr__` (src/base.py:256-263): an underscore-prefixed name
not present as a dict entry becomes an instance attribute (a transient
variable); everything else goes through `__setitem__`. -/
def setattrF (g : Node) (nm : String) (v : Node) : Except Err Node :=
  if strStartsWith nm "_" then
    match containsF g nm with
    | .ok true => setItemF g nm v
    | .ok false =>
        match g with
        | .group k es hid => .ok (.group k es (upsertE hid nm v))
        | _ => .error .typeError
    | .error e => .error e
  else setItemF g nm v

/-- The result of attribute access: a bound method of the class, or a
value (an instance attribute or a dict entry). -/
inductive AttrRes where
  | method (nm : String)
  | val (v : Node)

/-- `data.__getattribute__` (src/base.py:268-277): normal attribute lookup
(class attributes and the instance `__dict__`), then fall back to
`self[nm]`, catching only KeyError and re-raising it as AttributeError.
Modelled class attribute names never start with an underscore, so the
class/instance precedence order is immaterial here. -/
def getattrF (g : Node) (nm : String) : Except Err AttrRes :=
  match g with
  | .group k es hid =>
      if nm ∈ clsDir k then .ok (.method nm)
      else
        match lookupE hid nm with
        | some h => .ok (.val h)
        | none =>
            match getItemF (.group k es hid) nm with
            | .ok v => .ok (.val v)
            | .error .keyError => .error .attributeError
            | .error e => .error e
  | _ => .error .typeError

mutual
/-- `data.iter_data` (src/base.py:198-215): dotted-path keys of all leaf
entries, skipping keys that start with an underscore unless
`includeHidden`. -/
def iterData (g : Node) (includeHidden : Bool) : List String :=
  match g with
  | .group _ es _ => iterDataGo es includeHidden
  | _ => []

/-- Loop body of `data.iter_data` over the entries. -/
def iterDataGo (es : NEntries) (includeHidden : Bool) : List String :=
  match es with
  | .nil => []
  | .cons nm v rest =>
      (if !includeHidden && strStartsWith nm "_" then []
       else
         match v with
         | .group k es2 hid =>
             (iterData (.group k es2 hid) includeHidden).map (fun s => nm ++ "." ++ s)
         | .arr _ _ => [nm]
         | .objArr _ => [nm]
         | .scal _ => [nm]
         | .opq _ => [nm]) ++ iterDataGo rest includeHidden
end

mutual
/-- Recursively drop the instance-attribute (`hidden`) maps.  Deserialized
instances have empty instance `__dict__`s, so the round trip reproduces
exactly the hidden-stripped tree. -/
def stripHidden : Node → Node
  | .group k es _ => .group k (stripE es) .nil
  | n => n

/-- `stripHidden` mapped over entries. -/
def stripE : NEntries → NEntries
  | .nil => .nil
  | .cons nm v rest => .cons nm (stripHidden v) (stripE rest)
end

mutual
/-- Well-formedness of an in-memory container tree, the invariants of the
data model (spec §3): keys contain no path separator and collide with no
reserved attribute name, keys are unique, and every opaque payload (object
array cells, opaque scalars) is picklable. -/
def wfNode : Node → Bool
  | .arr _ _ => true
  | .objArr cells => cells.all fun c =>
      match c with
      | .pyNone => true
      | .obj o => o.picklable
  | .scal _ => true
  | .opq o => o.picklable
  | .group _ es _ => wfEntries es

/-- Entry-list part of `wfNode`. -/
def wfEntries : NEntries → Bool
  | .nil => true
  | .cons nm v rest =>
      (!strContains nm '.') && !(decide (nm ∈ allReserved)) &&
        !(decide (nm ∈ keysE rest)) && wfNode v && wfEntries rest
end

/-- Python-level key-set equality `set(d1.keys()) == set(d2.keys())`. -/
def keysetEq (a b : List String) : Bool :=
  a.all (fun k => decide (k ∈ b)) && b.all (fun k => decide (k ∈ a))

mutual
/-- The per-key comparison of `_equiv_dict` (src/base.py:100-109): arrays
elementwise (`nptest.assert_equal`, which ignores dtype but requires both
operands to be arrays of the same Python type), nested dict-likes
recursively (including the `type(d1) is type(d2)` re-check), anything
else by Python `==` (opaque values structurally, see module comment). -/
def equivVal : Node → Node → Bool
  | .arr _ v1, w =>
      match w with
      | .arr _ v2 => decide (v1 = v2)
      | _ => false
  | .objArr c1, w =>
      match w with
      | .objArr c2 => decide (c1 = c2)
      | _ => false
  | .scal a, w =>
      match w with
      | .scal b => pyEqScal a b
      | _ => false
  | .opq a, w =>
      match w with
      | .opq b => decide (a = b)
      | _ => false
  | .group k1 es1 _, w =>
      match w with
      | .group k2 es2 _ =>
          decide (k1 = k2) && keysetEq (keysE es1) (keysE es2) && equivAll es1 es2
      | _ => false

/-- The `for ky in d1` loop of `_equiv_dict` (src/base.py:100-114): every
key of the first operand must compare equal to the corresponding value of
the second. -/
def equivAll : NEntries → NEntries → Bool
  | .nil, _ => true
  | .cons nm v rest, es2 =>
      (match lookupE es2 nm with
       | some w => equivVal v w
       | none => false) && equivAll rest es2
end

/-- `data.__eq__` / `_equiv_dict` (src/base.py:88-122, 250-254): both
operands must be container instances of the same class, with equal key
sets and pairwise-equivalent values. -/
def eqData : Node → Node → Bool
  | .group k1 es1 _, .group k2 es2 _ =>
      decide (k1 = k2) && keysetEq (keysE es1) (keysE es2) && equivAll es1 es2
  | _, _ => false

/-! ## The pickling model -/

/-- Which module paths are importable in the loading process: the package
module of src/base.py, numpy, the py2 builtins module, and `__main__`
(standing for in-process user-defined classes of opaque values). -/
def importOk (m : List String) : Bool :=
  decide (m = ["pyDictH5", "base"]) || decide (m = ["numpy"]) ||
    decide (m = ["__builtin__"]) || decide (m = ["__main__"])

/-- Class lookup inside an imported module (`getattr(module, name)`). -/
def classLookup (m : List String) (nm : String) : Option PyType :=
  if m = ["pyDictH5", "base"] then
    match nm with
    | "data" => some (.container .data)
    | "SpecData" => some (.container .SpecData)
    | "flat" => some (.container .flat)
    | "TimeBased" => some (.container .TimeBased)
    | "tabular" => some (.container .tabular)
    | "geodat" => some (.container .geodat)
    | _ => none
  else if m = ["numpy"] then
    match nm with
    | "ndarray" => some .ndarray
    | _ => none
  else if m = ["__builtin__"] then
    match nm with
    | "int" => some (.builtin "int")
    | "str" => some (.builtin "str")
    | "bool" => some (.builtin "bool")
    | "dict" => some .pydict
    | _ => none
  else if m = ["__main__"] then some (.objCls nm)
  else none

/-- `pickle.loads` on a pickled class: ImportError when the recorded module
cannot be imported, AttributeError when the module imports but lacks the
class. -/
def pklLoadsCls (m : List String) (nm : String) : Except Err PyType :=
  if importOk m then
    match classLookup m nm with
    | some t => .ok t
    | none => .error .attributeError
  else .error .importError

/-- The pickled identity `pickle.dumps(t)` of a Python type. -/
def pklDumpsType : PyType → Bytes
  | .ndarray => .clsPkl ["numpy"] "ndarray"
  | .container k => .clsPkl ["pyDictH5", "base"] k.name
  | .pydict => .clsPkl ["__builtin__"] "dict"
  | .builtin nm => .clsPkl ["__builtin__"] nm
  | .objCls nm => .clsPkl ["__main__"] nm

/-- `pickle.dumps` on an object-array cell (src/io.py:37): `None` pickles
to a non-empty byte string; an unpicklable value raises. -/
def pklDumpsCell : CellV → Except Err Bytes
  | .pyNone => .ok .nonePkl
  | .obj o => if o.picklable then .ok (.objPkl o) else .error .pickleError

/-- The builtin type name of a native scalar. -/
def scalTyName : NScal → String
  | .i _ => "int"
  | .s _ => "str"
  | .b _ => "bool"

/-- `cls_pklstr_gen` (src/io.py:65-79) on the module-path part of the
pickled class string: the original module path first, then the path with
leading qualification segments progressively stripped. -/
def clsCandidates : List String → List (List String)
  | [] => [[]]
  | [m] => [[m]]
  | m :: rest => (m :: rest) :: clsCandidates rest

/-- The candidate loop of `load_hdf5` (src/io.py:92-105): try each
candidate class string; only ImportError is caught and skipped
(AttributeError from a module that imports but lacks the class
propagates); when no candidate resolves, warn and fall back to the generic
`data` class.  Returns the class together with the warning flag. -/
def resolveLoopGo (name : String) : List (List String) → Except Err (PyType × Bool)
  | [] => .ok (.container .data, true)
  | c :: cs =>
      match pklLoadsCls c name with
      | .ok t => .ok (t, false)
      | .error .importError => resolveLoopGo name cs
      | .error e => .error e

/-- Resolve the `__pyclass__` attribute of a group (src/io.py:91-107).
Bytes that are not a pickled class either fail to unpickle (the error
propagates) or unpickle to a non-class, whose later call
`outclass()` raises; both are modelled as errors here. -/
def resolveClassAttr : Bytes → Except Err (PyType × Bool)
  | .clsPkl mod name => resolveLoopGo name (clsCandidates mod)
  | .empty => .error .unpicklingError
  | .objPkl _ => .error .typeError
  | .nonePkl => .error .typeError

/-! ## The store model (the HDF5 substrate) -/

/-- The cell payload of a dataset: a numeric array with its dtype, a
string-encoded temporal array (`astype('S')`, values kept abstractly), a
variable-length byte-string array (object arrays), a zero-shape native
scalar, or a zero-shape byte string (pickled scalars). -/
inductive HCells where
  | numeric (dtype : String) (vals : List Int)
  | strEnc (vals : List Int)
  | vlen (cells : List Bytes)
  | scalNative (v : NScal)
  | scalBytes (b : Bytes)
deriving DecidableEq, Repr

mutual
/-- A store location: a dataset or a group, each with an attribute map. -/
inductive HNode where
  | dataset (attrs : List (String × AttrVal)) (cells : HCells)
  | hgroup (attrs : List (String × AttrVal)) (children : HChildren)

/-- Named children of a store group, in creation order. -/
inductive HChildren where
  | nil
  | cons (nm : String) (v : HNode) (rest : HChildren)
end

/-- `attrs.get(nm)` on an attribute map. -/
def attrGet (attrs : List (String × AttrVal)) (nm : String) : Option AttrVal :=
  match attrs with
  | [] => none
  | (k, v) :: rest => if k = nm then some v else attrGet rest nm

/-- `attrs.get(nm)` when the use site compares it with strings
(`_type`). -/
def attrGetStr (attrs : List (String × AttrVal)) (nm : String) : Option String :=
  match attrGet attrs nm with
  | some (.str s) => some s
  | _ => none

/-- Version stamps written at the file root (src/io.py:13-14; the values
come from the package's `_version` module, not under src/). -/
def pkgName : String := "pyDictH5"

/-- The package version string stamped at the file root. -/
def verStr : String := "1.0"

/-! ## The serializer: `hdf5_write` (src/io.py:9-62)

`hdf5_write` handles a nested `data` child by calling the child's
`to_hdf5` method (src/io.py:20), which is `data.to_hdf5` of
src/base.py:279-307 — an older writer with no native-scalar,
pickled-object, or datetime64 branch, so nested groups can hold only
non-temporal arrays and object arrays; other nested leaves make the
program raise.  The plain-`dict` branch (src/io.py:22-26) is not
modelled: the container model's children are `data` subclasses. -/

/-- `pickle.dumps` over the flat cells of an object array
(src/io.py:35-37, src/base.py:300-302). -/
def writeCells : List CellV → Except Err (List Bytes)
  | [] => .ok []
  | c :: cs =>
      match pklDumpsCell c with
      | .ok b =>
          match writeCells cs with
          | .ok bs => .ok (b :: bs)
          | .error e => .error e
      | .error e => .error e

mutual
/-- `data.to_hdf5` (src/base.py:279-307) on a nested group, together with
its loop-body handling of one child value: a `data` child recurses
(src/base.py:292-294); an object array is pickled cell by cell into a
vlen dataset tagged `NumPy Object Array` (src/base.py:296-302, with NO
per-leaf `__pyclass__` attribute); any other value reaches
`dat.dtype == 'O'` (src/base.py:296), so a native or opaque scalar raises
AttributeError (no `dtype` attribute), and a datetime64 array falls to the
plain `create_dataset(data=dat, ...)` of src/base.py:303-305, which raises
TypeError in h5py (no native datetime64 conversion, no `astype('S')`
here).  Other arrays become plain attribute-less datasets. -/
def to_hdf5_base : Node → Except Err HNode
  | .group cls es _ =>
      match to_hdf5_base_entries es with
      | .ok ch =>
          .ok (.hgroup [("__pyclass__", .bytes (.clsPkl ["pyDictH5", "base"] cls.name))] ch)
      | .error e => .error e
  | .objArr cells =>
      match writeCells cells with
      | .ok bs => .ok (.dataset [("_type", .str "NumPy Object Array")] (.vlen bs))
      | .error e => .error e
  | .arr dt vs =>
      if strStartsWith dt "datetime64" then .error .typeError
      else .ok (.dataset [] (.numeric dt vs))
  | .scal _ => .error .attributeError
  | .opq _ => .error .attributeError

/-- The `for nm, dat in self.iteritems()` loop of `data.to_hdf5`
(src/base.py:291). -/
def to_hdf5_base_entries : NEntries → Except Err HChildren
  | .nil => .ok .nil
  | .cons nm v rest =>
      match to_hdf5_base v with
      | .ok hn =>
          match to_hdf5_base_entries rest with
          | .ok ch => .ok (.cons nm hn ch)
          | .error e => .error e
      | .error e => .error e
end

mutual
/-- Whether `data.to_hdf5` (src/base.py:291-305) can write this value as a
child without raising: only non-temporal arrays, object arrays, and groups
of such values, recursively. -/
def baseWritable : Node → Bool
  | .arr dt _ => !(strStartsWith dt "datetime64")
  | .objArr _ => true
  | .scal _ => false
  | .opq _ => false
  | .group _ es _ => baseWritableE es

/-- `baseWritable` over an entry list. -/
def baseWritableE : NEntries → Bool
  | .nil => true
  | .cons _ v rest => baseWritable v && baseWritableE rest
end

/-- Whether `hdf5_write` (src/io.py:18-60) can write this value as a
top-level entry without raising: any modelled leaf kind, but a group child
is delegated to `data.to_hdf5` and so must be base-writable throughout. -/
def ioWritable : Node → Bool
  | .group _ es _ => baseWritableE es
  | _ => true

/-- `ioWritable` over the top-level entry list. -/
def ioWritableE : NEntries → Bool
  | .nil => true
  | .cons _ v rest => ioWritable v && ioWritableE rest

/-- Serialize one value of the entry loop of `hdf5_write`
(src/io.py:18-60), producing the dataset or subgroup created for it. -/
def writeVal : Node → Except Err HNode
  | .group cls es hid =>
      -- isinstance(dat, bm.data): dat.to_hdf5(buf.create_group(nm), ...)
      -- (src/io.py:19-21) — the method is base.py's data.to_hdf5
      -- (src/base.py:279-307); the instance __dict__ is not iterated.
      to_hdf5_base (.group cls es hid)
  | .arr dt vs =>
      if strStartsWith dt "datetime64" then
        -- datetime64 arrays: astype('S') plus a '_type' attr carrying the
        -- exact dtype string (src/io.py:38-42)
        .ok (.dataset [("_type", .str dt),
                       ("__pyclass__", .bytes (pklDumpsType .ndarray))] (.strEnc vs))
      else
        -- plain numeric/boolean arrays: a direct dataset (src/io.py:43-50)
        .ok (.dataset [("__pyclass__", .bytes (pklDumpsType .ndarray))] (.numeric dt vs))
  | .objArr cells =>
      -- object arrays: one pickle per element into a vlen-bytes dataset,
      -- tagged 'NumPy Object Array' (src/io.py:29-37)
      match writeCells cells with
      | .ok bs =>
          .ok (.dataset [("_type", .str "NumPy Object Array"),
                         ("__pyclass__", .bytes (pklDumpsType .ndarray))] (.vlen bs))
      | .error e => .error e
  | .scal v =>
      -- native scalars: a zero-shape dataset tagged 'non-array scalar'
      -- (src/io.py:52-54)
      .ok (.dataset [("_type", .str "non-array scalar"),
                     ("__pyclass__", .bytes (pklDumpsType (.builtin (scalTyName v))))]
            (.scalNative v))
  | .opq o =>
      -- unencodable scalars: the bare except falls back to a pickled byte
      -- string tagged 'pickled object' (src/io.py:55-59)
      if o.picklable then
        .ok (.dataset [("_type", .str "pickled object"),
                       ("__pyclass__", .bytes (pklDumpsType (.objCls o.tyName)))]
              (.scalBytes (.objPkl o)))
      else .error .pickleError

/-- The `for nm, dat in dat.iteritems()` loop of `hdf5_write`
(src/io.py:18). -/
def writeEntries : NEntries → Except Err HChildren
  | .nil => .ok .nil
  | .cons nm v rest =>
      match writeVal v with
      | .ok hn =>
          match writeEntries rest with
          | .ok ch => .ok (.cons nm hn ch)
          | .error e => .error e
      | .error e => .error e

/-- `hdf5_write` called with a file name (src/io.py:10-17, 61-62): open the
file, stamp the package name and version, write the root class identity and
the entries.  `hdf5_write` requires a container argument (`dat.iteritems()`
otherwise raises). -/
def hdf5_write_top (d : Node) : Except Err HNode :=
  match d with
  | .group cls es _ =>
      match writeEntries es with
      | .ok ch =>
          .ok (.hgroup [("__package_name__", .str pkgName),
                        ("__version__", .str verStr),
                        ("__pyclass__", .bytes (.clsPkl ["pyDictH5", "base"] cls.name))] ch)
      | .error e => .error e
  | _ => .error .attributeError

/-- The observable effect of one path-argument call: its outcome and
whether the store file is closed when the call returns or raises. -/
structure IOCall (α : Type) where
  result : Except Err α
  closed : Bool
deriving Repr

/-- `hdf5_write(fname, d)`: the file is opened at the start and closed only
by the `buf.close()` after the loop (src/io.py:61-62) — there is no
try/finally, so an error propagating out of the body skips the close and
leaves the handle open. -/
def hdf5_write_call (d : Node) : IOCall HNode :=
  match hdf5_write_top d with
  | .ok s => { result := .ok s, closed := true }
  | .error e => { result := .error e, closed := false }

/-! ## The deserializer: `load_hdf5` (src/io.py:82-150) -/

/-- Decode one object-array cell (src/io.py:126-135): an empty byte string
becomes `None`; otherwise `pickle.loads` inside a bare try, keeping the
raw value on failure.  A pickled class cell unpickles to a class object,
approximated here as an opaque value (the writer never produces one). -/
def loadCell : Bytes → CellV
  | .empty => .pyNone
  | .nonePkl => .pyNone
  | .objPkl o => .obj o
  | .clsPkl _ nmc => .obj { tyName := nmc, payload := 0, picklable := true }

/-- Decode a `pickled object` scalar dataset (src/io.py:119-120):
`pickle.loads(dat[()])` with no exception handler.  A pickled `None` or
class leaf is outside the modelled value domain (the writer never produces
one). -/
def loadPickledScalar : Bytes → Except Err Node
  | .objPkl o => .ok (.opq o)
  | .empty => .error .unpicklingError
  | .nonePkl => .error .typeError
  | .clsPkl _ _ => .error .typeError

/-- The leaf-level `__pyclass__` resolution (src/io.py:116-118):
`attrs.get('__pyclass__', np.ndarray)`, unpickled when present — with no
exception handler, so an unresolvable leaf type propagates.  A
non-class byte string or a string attribute fails to unpickle as a
class. -/
def loadLeafCls (a : Option AttrVal) : Except Err PyType :=
  match a with
  | none => .ok .ndarray
  | some (.bytes (.clsPkl m n)) => pklLoadsCls m n
  | some (.bytes _) => .error .typeError
  | some (.str _) => .error .unpicklingError

/-- The datetime retag of the final array branch (src/io.py:139-142):
`np.array(dat)` then `astype(type_str)` when the tag is a datetime64
dtype string. -/
def retagDt (tstr : Option String) (dt : String) (vs : List Int) : Node :=
  match tstr with
  | some t => if strStartsWith t "datetime64" then .arr t vs else .arr dt vs
  | none => .arr dt vs

/-- Decode a child dataset inside the `load_hdf5` loop (src/io.py:115-144).
The `out[nm].view(cls)` re-cast for array subclasses (src/io.py:136-137,
143-144) is not modelled: the modelled writer always records
`numpy.ndarray` there, and the closed leaf-kind set contains no array
subclass.  Branches marked unreachable are never produced by the writer. -/
def decodeDataset (attrs : List (String × AttrVal)) (cells : HCells) : Except Err Node :=
  let tstr := attrGetStr attrs "_type"
  match loadLeafCls (attrGet attrs "__pyclass__") with
  | .error e => .error e
  | .ok _ =>
      if tstr = some "pickled object" then
        match cells with
        | .scalBytes b => loadPickledScalar b
        | _ => .error .typeError   -- unreachable for written stores
      else if tstr = some "non-array scalar" then
        match cells with
        | .scalNative v => .ok (.scal v)
        | _ => .error .typeError   -- unreachable for written stores
      else
        match cells with
        | .vlen bs =>
            -- dat.dtype == 'O' branch (src/io.py:123-137)
            if tstr = some "NumPy Object Array" then .ok (.objArr (bs.map loadCell))
            else .error .typeError   -- untagged vlen dataset: unreachable
        | .numeric dt vs => .ok (retagDt tstr dt vs)
        | .strEnc vs => .ok (retagDt tstr "S" vs)
        | .scalNative v => .ok (.scal v)   -- np.array on a 0-d dataset
        | .scalBytes _ => .error .typeError   -- unreachable for written stores

/-- Instantiate the resolved class (`out = outclass()`, src/io.py:107).
Only container classes yield a container instance; the loop below would
fail on any other callee, which the modelled loader reports here. -/
def instantiateCls : PyType → Except Err Node
  | .container k => .ok (.group k .nil .nil)
  | _ => .error .typeError

mutual
/-- `load_hdf5` on an open store location (src/io.py:89-150).  Returns the
loaded node together with a flag recording whether the fallback warning of
src/io.py:102-104 was printed anywhere in the traversal. -/
def load_hdf5_node : HNode → Except Err (Node × Bool)
  | .hgroup attrs ch =>
      -- buf.attrs['__pyclass__'] raises KeyError when absent (src/io.py:94)
      match attrGet attrs "__pyclass__" with
      | some (.bytes b) =>
          match resolveClassAttr b with
          | .ok (ty, warned) =>
              match instantiateCls ty with
              | .ok init =>
                  match load_children ch init with
                  | .ok (out, w2) => .ok (out, warned || w2)
                  | .error e => .error e
              | .error e => .error e
          | .error e => .error e
      | some (.str _) => .error .unpicklingError
      | none => .error .keyError
  | .dataset attrs cells =>
      -- a direct call on a dataset (src/io.py:145-150): out = np.array(buf)
      match loadLeafCls (attrGet attrs "__pyclass__") with
      | .ok _ => (decodeDataset attrs cells).map (fun n => (n, false))
      | .error e => .error e

/-- The `for nm, dat in buf.iteritems()` loop of `load_hdf5`
(src/io.py:110-144): groups recurse, datasets are decoded inline, and
each result is stored with `out[nm] = ...`, which goes through
`data.__setitem__` with its reserved-name check and dotted-path split. -/
def load_children : HChildren → Node → Except Err (Node × Bool)
  | .nil, st => .ok (st, false)
  | .cons nm hn rest, st =>
      match
        (match hn with
         | .hgroup a c => load_hdf5_node (.hgroup a c)
         | .dataset a c => (decodeDataset a c).map (fun n => (n, false))) with
      | .ok (v, wv) =>
          match setItemF st nm v with
          | .ok st' =>
              match load_children rest st' with
              | .ok (out, wr) => .ok (out, wv || wr)
              | .error e => .error e
          | .error e => .error e
      | .error e => .error e
end

/-- `load_hdf5(fname)` (src/io.py:86-88): the file is opened inside a
`with` block, so it is closed on every exit path, error or not. -/
def load_hdf5_call (s : HNode) : IOCall (Node × Bool) :=
  { result := load_hdf5_node s, closed := true }

/-- The per-child decoding step of the `load_hdf5` loop, as a named
function: recurse on groups, decode datasets inline (src/io.py:113-144). -/
def childDecode : HNode → Except Err (Node × Bool)
  | .hgroup a c => load_hdf5_node (.hgroup a c)
  | .dataset a c => (decodeDataset a c).map (fun n => (n, false))

/-! ## `flat.append` (src/base.py:380-397) -/

/-- `np.concatenate((a, b), axis=0)` as used by `flat.append`
(src/base.py:393-395): both operands arrays of the same kind.  Mixed
numeric/object concatenation (numpy would promote) is outside the modelled
value domain; concatenating an array with a non-array raises ValueError. -/
def concatNodes : Node → Node → Except Err Node
  | .arr dt v, .arr _ w => .ok (.arr dt (v ++ w))
  | .objArr a, .objArr b => .ok (.objArr (a ++ b))
  | .arr _ _, .objArr _ => .error .typeError
  | .objArr _, .arr _ _ => .error .typeError
  | _, _ => .error .valueError

mutual
/-- `flat.append(other)` (src/base.py:380-397): for every key of the
receiver, a numpy-array value is concatenated with `other[nm]` along axis
0 and written back through `self[nm] = ...`; any other value has
`dat.append(other[nm])` called on it, which only exists on `flat`-family
children — a scalar, opaque value, or non-flat container raises
AttributeError, with no value comparison of any kind. -/
def appendF : Node → Node → Except Err Node
  | .group k es hid, other => appendLoop es (.group k es hid) other
  | _, _ => .error .attributeError

/-- The `for nm, dat in self.iteritems()` loop of `flat.append`.  The
iteration reads the original entries (each key is visited once and only
its own entry is replaced, so under unique keys this matches the in-place
Python iteration); `st` is the receiver being mutated. -/
def appendLoop : NEntries → Node → Node → Except Err Node
  | .nil, st, _ => .ok st
  | .cons nm dat rest, st, other =>
      match dat with
      | .arr dt v =>
          -- np.concatenate((self[nm], other[nm]), axis=0)
          match getItemF other nm with
          | .ok o =>
              match concatNodes (.arr dt v) o with
              | .ok c =>
                  match setItemF st nm c with
                  | .ok st' => appendLoop rest st' other
                  | .error e => .error e
              | .error e => .error e
          | .error e => .error e
      | .objArr cs =>
          match getItemF other nm with
          | .ok o =>
              match concatNodes (.objArr cs) o with
              | .ok c =>
                  match setItemF st nm c with
                  | .ok st' => appendLoop rest st' other
                  | .error e => .error e
              | .error e => .error e
          | .error e => .error e
      | .group kc esc hc =>
          -- dat.append(other[nm]): the attribute lookup precedes the
          -- argument; only flat-family classes have an append method
          if kc.flatFamily then
            match getItemF other nm with
            | .ok o =>
                match appendF (.group kc esc hc) o with
                | .ok child' =>
                    -- in-place mutation of the child object
                    match dictSetRaw st nm child' with
                    | .ok st' => appendLoop rest st' other
                    | .error e => .error e
                | .error e => .error e
            | .error e => .error e
          else .error .attributeError
      | _ => .error .attributeError
end

/-! ## `flat.subset` (src/base.py:399-428) -/

/-- Apply an index spec to the flat cell list of an object array. -/
def applySliceC (i : Idx) (cells : List CellV) : List CellV :=
  applySlice i cells

/-- Lookup in the `**kwargs` per-child index map of `subset`. -/
def kwLookup : List (String × Idx) → String → Option Idx
  | [], _ => none
  | (k, i) :: rest, nm => if k = nm then some i else kwLookup rest nm

/-- The error raised by `self[nm][index]` on a non-flat container child:
`TimeBased.__getitem__` dispatches to the missing `subset` method
(AttributeError, src/base.py:466-470); `data.__getitem__` on a non-string
index raises TypeError at `'.' not in indx` (src/base.py:139). -/
def childIndexErr : KCls → Err
  | .TimeBased => .attributeError
  | _ => .typeError

mutual
/-- `flat.subset(inds, **kwargs)` (src/base.py:399-428): build a fresh
instance of the receiver's class (`out = self.__class__()`), then for each
key: a container child uses its per-child index from `kwargs` if present,
else is recursively subset when it is `flat`, else is silently skipped
(the `else` branch is commented out in the source, so the child is absent
from the result); any other value gets `self[nm][inds]`.  The
tuple-packed `(inds, kwargs)` calling form (src/base.py:413-416) is not
modelled. -/
def subsetF : Node → Idx → List (String × Idx) → Except Err Node
  | .group k es _, inds, kw => subsetLoop es (.group k .nil .nil) inds kw
  | _, _, _ => .error .attributeError

/-- The `for nm in self` loop of `flat.subset` (src/base.py:418-427);
`out` accumulates the result, written through `out[nm] = ...`
(`data.__setitem__`). -/
def subsetLoop : NEntries → Node → Idx → List (String × Idx) → Except Err Node
  | .nil, out, _, _ => .ok out
  | .cons nm v rest, out, inds, kw =>
      match v with
      | .group kc esc hc =>
          (match kwLookup kw nm with
           | some i =>
               -- out[nm] = self[nm][kwargs[nm]]
               if kc.flatFamily then
                 match subsetF (.group kc esc hc) i [] with
                 | .ok sub =>
                     match setItemF out nm sub with
                     | .ok out' => subsetLoop rest out' inds kw
                     | .error e => .error e
                 | .error e => .error e
               else .error (childIndexErr kc)
           | none =>
               if kc.flatFamily then
                 -- elif isinstance(self[nm], flat): out[nm] = self[nm][inds]
                 match subsetF (.group kc esc hc) inds [] with
                 | .ok sub =>
                     match setItemF out nm sub with
                     | .ok out' => subsetLoop rest out' inds kw
                     | .error e => .error e
                 | .error e => .error e
               else
                 -- the commented-out else (src/base.py:424-425): skipped
                 subsetLoop rest out inds kw)
      | .arr dt vs =>
          match setItemF out nm (.arr dt (applySlice inds vs)) with
          | .ok out' => subsetLoop rest out' inds kw
          | .error e => .error e
      | .objArr cs =>
          match setItemF out nm (.objArr (applySliceC inds cs)) with
          | .ok out' => subsetLoop rest out' inds kw
          | .error e => .error e
      | _ =>
          -- self[nm][inds] on a scalar raises TypeError
          .error .typeError
end

/-! ## Helper notions used by the theorem statements -/

/-- Occurrence of a binding in an entry list (each occurrence, not only the
first). -/
def entryMem (nm : String) (v : Node) : NEntries → Prop
  | .nil => False
  | .cons nm' v' rest => (nm = nm' ∧ v = v') ∨ entryMem nm v rest

/-- The byte string `pickle.dumps` produces for an object-array cell when
it succeeds. -/
def cellEnc : CellV → Bytes
  | .pyNone => .nonePkl
  | .obj o => .objPkl o

/-- The entry list `flat.subset` produces from entries that are numeric
arrays or non-flat container children with no per-child index: arrays are
sliced, such children are omitted (other shapes do not occur under the
amended claim's hypothesis). -/
def subsetArrOnly (i : Idx) : NEntries → NEntries
  | .nil => .nil
  | .cons nm v rest =>
      match v with
      | .arr dt vals => .cons nm (.arr dt (applySlice i vals)) (subsetArrOnly i rest)
      | _ => subsetArrOnly i rest

/-- The shape hypothesis under which the `flat.append` loop
(src/base.py:391-397) completes: every field of the receiver is either an
array whose counterpart in `other` is an array, or a flat-family child
Group (with no transient attributes) whose counterpart is recursively
appendable. -/
inductive Appendable : NEntries → Node → Prop where
  | nil : (other : Node) → Appendable .nil other
  | consArr : {nm dt : String} → {vals : List Int} → {rest : NEntries} →
      {other : Node} → {dt2 : String} → {w : List Int} →
      getItemF other nm = .ok (.arr dt2 w) → Appendable rest other →
      Appendable (.cons nm (.arr dt vals) rest) other
  | consFlat : {nm : String} → {kc : KCls} → {esc rest : NEntries} →
      {other oc : Node} →
      kc.flatFamily = true → getItemF other nm = .ok oc → Appendable esc oc →
      Appendable rest other →
      Appendable (.cons nm (.group kc esc .nil) rest) other

/-- Whether `dat.append` is missing on a value (src/base.py:397: the
attribute lookup raises AttributeError): scalars, opaque values, and
non-flat container children have no append method; arrays take the
concatenate branch and flat-family children have the method. -/
def noAppendMethod : Node → Bool
  | .scal _ => true
  | .opq _ => true
  | .group kc _ _ => !kc.flatFamily
  | .arr _ _ => false
  | .objArr _ => false

/-! ## Basic lemmas about entry lists -/

theorem appE_nil : (es : NEntries) → appE es .nil = es
  | .nil => rfl
  | .cons nm v rest => by rw [appE, appE_nil rest]

theorem appE_assoc : (a : NEntries) → (b c : NEntries) →
    appE (appE a b) c = appE a (appE b c)
  | .nil, _, _ => rfl
  | .cons nm v rest, b, c => by rw [appE, appE, appE, appE_assoc rest]

theorem keysE_appE : (a b : NEntries) → keysE (appE a b) = keysE a ++ keysE b
  | .nil, _ => rfl
  | .cons nm v rest, b => by rw [appE, keysE, keysE, keysE_appE rest, List.cons_append]

theorem lookupE_eq_none : (es : NEntries) → (nm : String) → nm ∉ keysE es →
    lookupE es nm = none
  | .nil, _, _ => rfl
  | .cons k v rest, nm, h => by
      rw [lookupE]
      rw [keysE, List.mem_cons] at h
      push_neg at h
      rw [if_neg (fun hk => h.1 hk.symm)]
      exact lookupE_eq_none rest nm h.2

theorem lookupE_mem_keys : (es : NEntries) → (nm : String) → (v : Node) →
    lookupE es nm = some v → nm ∈ keysE es
  | .nil, _, _, h => by cases h
  | .cons k w rest, nm, v, h => by
      rw [lookupE] at h
      rw [keysE, List.mem_cons]
      by_cases hk : k = nm
      · exact Or.inl hk.symm
      · rw [if_neg hk] at h
        exact Or.inr (lookupE_mem_keys rest nm v h)

theorem lookupE_upsert_self : (es : NEntries) → (nm : String) → (v : Node) →
    lookupE (upsertE es nm v) nm = some v
  | .nil, nm, v => by rw [upsertE, lookupE, if_pos rfl]
  | .cons k w rest, nm, v => by
      rw [upsertE]
      by_cases hk : k = nm
      · rw [if_pos hk, lookupE, if_pos hk]
      · rw [if_neg hk, lookupE, if_neg hk]
        exact lookupE_upsert_self rest nm v

theorem lookupE_upsert_ne : (es : NEntries) → (nm k' : String) → (v : Node) →
    nm ≠ k' → lookupE (upsertE es nm v) k' = lookupE es k'
  | .nil, nm, k', v, h => by
      simp only [upsertE, lookupE, if_neg h]
  | .cons k w rest, nm, k', v, h => by
      simp only [upsertE]
      by_cases hk : k = nm
      · subst hk
        simp only [if_pos rfl, lookupE, if_neg h]
      · simp only [if_neg hk, lookupE]
        by_cases hk' : k = k'
        · simp only [if_pos hk']
        · simp only [if_neg hk']
          exact lookupE_upsert_ne rest nm k' v h

theorem upsertE_notmem : (es : NEntries) → (nm : String) → (v : Node) →
    nm ∉ keysE es → upsertE es nm v = appE es (.cons nm v .nil)
  | .nil, _, _, _ => rfl
  | .cons k w rest, nm, v, h => by
      rw [keysE, List.mem_cons] at h
      push_neg at h
      rw [upsertE, if_neg (fun hk => h.1 hk.symm), appE]
      rw [upsertE_notmem rest nm v h.2]

theorem keysE_upsert_mem : (es : NEntries) → (nm : String) → (v : Node) →
    nm ∈ keysE es → keysE (upsertE es nm v) = keysE es
  | .nil, nm, _, h => by cases h
  | .cons k w rest, nm, v, h => by
      rw [upsertE]
      by_cases hk : k = nm
      · rw [if_pos hk, keysE, keysE]
      · rw [if_neg hk, keysE, keysE]
        rw [keysE, List.mem_cons] at h
        rcases h with h | h
        · exact absurd h.symm hk
        · rw [keysE_upsert_mem rest nm v h]

theorem entryMem_keys : (es : NEntries) → (nm : String) → (v : Node) →
    entryMem nm v es → nm ∈ keysE es
  | .nil, _, _, h => h.elim
  | .cons k w rest, nm, v, h => by
      rw [entryMem] at h
      rw [keysE, List.mem_cons]
      rcases h with ⟨h1, _⟩ | h
      · exact Or.inl h1
      · exact Or.inr (entryMem_keys rest nm v h)

theorem lookupE_entryMem : (es : NEntries) → (nm : String) → (v : Node) →
    lookupE es nm = some v → entryMem nm v es
  | .nil, _, _, h => by cases h
  | .cons k w rest, nm, v, h => by
      rw [lookupE] at h
      rw [entryMem]
      by_cases hk : k = nm
      · rw [if_pos hk] at h
        exact Or.inl ⟨hk.symm, (Option.some_inj.mp h).symm⟩
      · rw [if_neg hk] at h
        exact Or.inr (lookupE_entryMem rest nm v h)

/-! ## Lemmas about well-formedness -/

theorem wfEntries_cons_iff (nm : String) (v : Node) (rest : NEntries) :
    wfEntries (.cons nm v rest) = true ↔
      (strContains nm '.' = false ∧ nm ∉ allReserved ∧ nm ∉ keysE rest ∧
        wfNode v = true ∧ wfEntries rest = true) := by
  rw [wfEntries]
  simp [Bool.and_eq_true, Bool.not_eq_true', decide_eq_false_iff_not, and_assoc]

theorem clsDir_sub_allReserved (k : KCls) (x : String) (h : x ∈ clsDir k) :
    x ∈ allReserved := by
  cases k <;>
    simp only [clsDir, allReserved, List.mem_append] at h ⊢ <;> tauto

theorem entryMem_lookup_of_wf : (es : NEntries) → (nm : String) → (v : Node) →
    wfEntries es = true → entryMem nm v es → lookupE es nm = some v
  | .nil, _, _, _, h => h.elim
  | .cons k w rest, nm, v, hwf, h => by
      rw [wfEntries_cons_iff] at hwf
      rw [entryMem] at h
      rw [lookupE]
      rcases h with ⟨h1, h2⟩ | h
      · rw [if_pos h1.symm, h2]
      · have hk : ¬ k = nm := by
          intro hk
          exact hwf.2.2.1 (hk ▸ entryMem_keys rest nm v h)
        rw [if_neg hk]
        exact entryMem_lookup_of_wf rest nm v hwf.2.2.2.2 h

theorem wf_entryMem_wfNode : (es : NEntries) → (nm : String) → (v : Node) →
    wfEntries es = true → entryMem nm v es → wfNode v = true
  | .nil, _, _, _, h => h.elim
  | .cons k w rest, nm, v, hwf, h => by
      rw [wfEntries_cons_iff] at hwf
      rw [entryMem] at h
      rcases h with ⟨_, h2⟩ | h
      · exact h2 ▸ hwf.2.2.2.1
      · exact wf_entryMem_wfNode rest nm v hwf.2.2.2.2 h

theorem wf_keys_nodot : (es : NEntries) → (nm : String) →
    wfEntries es = true → nm ∈ keysE es → strContains nm '.' = false
  | .nil, _, _, h => by cases h
  | .cons k w rest, nm, hwf, h => by
      rw [wfEntries_cons_iff] at hwf
      rw [keysE, List.mem_cons] at h
      rcases h with h | h
      · exact h ▸ hwf.1
      · exact wf_keys_nodot rest nm hwf.2.2.2.2 h

/-! ## Lemmas about `stripHidden` -/

theorem keysE_stripE : (es : NEntries) → keysE (stripE es) = keysE es
  | .nil => rfl
  | .cons nm v rest => by rw [stripE, keysE, keysE, keysE_stripE rest]

theorem lookupE_stripE : (es : NEntries) → (nm : String) →
    lookupE (stripE es) nm = (lookupE es nm).map stripHidden
  | .nil, _ => rfl
  | .cons k v rest, nm => by
      rw [stripE, lookupE, lookupE]
      by_cases hk : k = nm
      · rw [if_pos hk, if_pos hk, Option.map_some']
      · rw [if_neg hk, if_neg hk]
        exact lookupE_stripE rest nm

theorem entryMem_stripE : (es : NEntries) → (nm : String) → (v : Node) →
    entryMem nm v (stripE es) → ∃ w, entryMem nm w es ∧ v = stripHidden w
  | .nil, _, _, h => h.elim
  | .cons k w rest, nm, v, h => by
      rw [stripE, entryMem] at h
      rcases h with ⟨h1, h2⟩ | h
      · exact ⟨w, Or.inl ⟨h1, rfl⟩, h2⟩
      · obtain ⟨w', hw1, hw2⟩ := entryMem_stripE rest nm v h
        exact ⟨w', Or.inr hw1, hw2⟩

/-! ## Evaluation lemmas for attribute maps and class resolution -/

theorem attrGet_pyclass_single (b : AttrVal) :
    attrGet [("__pyclass__", b)] "__pyclass__" = some b := rfl

theorem attrGetStr_pyclass_single (b : AttrVal) :
    attrGetStr [("__pyclass__", b)] "_type" = none := rfl

theorem attrGet_tagged (s : String) (b : AttrVal) :
    attrGet [("_type", .str s), ("__pyclass__", b)] "__pyclass__" = some b := rfl

theorem attrGetStr_tagged (s : String) (b : AttrVal) :
    attrGetStr [("_type", .str s), ("__pyclass__", b)] "_type" = some s := rfl

theorem loadLeafCls_ndarray :
    loadLeafCls (some (.bytes (pklDumpsType .ndarray))) = .ok .ndarray := rfl

theorem loadLeafCls_builtin (v : NScal) :
    loadLeafCls (some (.bytes (pklDumpsType (.builtin (scalTyName v))))) =
      .ok (.builtin (scalTyName v)) := by
  cases v <;> rfl

theorem loadLeafCls_main (nm : String) :
    loadLeafCls (some (.bytes (pklDumpsType (.objCls nm)))) = .ok (.objCls nm) := rfl

theorem resolveClassAttr_known (k : KCls) :
    resolveClassAttr (.clsPkl ["pyDictH5", "base"] k.name) =
      .ok (.container k, false) := by
  cases k <;> rfl

theorem load_children_cons_eq (nm : String) (hn : HNode) (rest : HChildren) (st : Node) :
    load_children (.cons nm hn rest) st =
      (match childDecode hn with
       | .ok (v, wv) =>
           (match setItemF st nm v with
            | .ok st' =>
                (match load_children rest st' with
                 | .ok (out, wr) => .ok (out, wv || wr)
                 | .error e => .error e)
            | .error e => .error e)
       | .error e => .error e) := by
  cases hn <;> rfl

/-! ## Round-trip lemmas for object-array cells -/

theorem writeCells_map : (cells : List CellV) →
    (∀ c ∈ cells, (match c with | CellV.pyNone => true | CellV.obj o => o.picklable) = true) →
    writeCells cells = .ok (cells.map cellEnc)
  | [], _ => rfl
  | c :: cs, h => by
      have hc : pklDumpsCell c = .ok (cellEnc c) := by
        cases c with
        | pyNone => rfl
        | obj o =>
            have hp : o.picklable = true := by
              simpa using h (.obj o) (List.mem_cons_self _ _)
            simp [pklDumpsCell, cellEnc, hp]
      have ih := writeCells_map cs (fun c hc => h c (List.mem_cons_of_mem _ hc))
      simp only [writeCells, hc, ih, List.map_cons]

theorem map_loadCell_cellEnc : (cells : List CellV) →
    (cells.map cellEnc).map loadCell = cells
  | [] => rfl
  | c :: cs => by
      have hc : loadCell (cellEnc c) = c := by cases c <;> rfl
      simp only [List.map_cons, hc, map_loadCell_cellEnc cs]

/-! ## The round trip: `load_hdf5` inverts `hdf5_write` on writable trees -/

theorem attrGetStr_type_only (s : String) :
    attrGetStr [("_type", .str s)] "_type" = some s := rfl

theorem attrGet_type_only_pyclass (s : String) :
    attrGet [("_type", .str s)] "__pyclass__" = none := rfl

mutual

theorem base_rt_val : (v : Node) → wfNode v = true → baseWritable v = true →
    ∃ hn, to_hdf5_base v = .ok hn ∧ childDecode hn = .ok (stripHidden v, false)
  | .arr dt vs, _, hbw => by
      have hdt : strStartsWith dt "datetime64" = false := by
        have h : (!(strStartsWith dt "datetime64")) = true := hbw
        simpa using h
      refine ⟨.dataset [] (.numeric dt vs), ?_, ?_⟩
      · simp only [to_hdf5_base, hdt, Bool.false_eq_true, if_false]
      · rfl
  | .objArr cells, hwf, _ => by
      have hall : ∀ c ∈ cells,
          (match c with | CellV.pyNone => true | CellV.obj o => o.picklable) = true := by
        simpa only [wfNode, List.all_eq_true] using hwf
      refine ⟨.dataset [("_type", .str "NumPy Object Array")] (.vlen (cells.map cellEnc)),
        ?_, ?_⟩
      · simp only [to_hdf5_base, writeCells_map cells hall]
      · show (Except.ok (Node.objArr ((cells.map cellEnc).map loadCell), false) :
            Except Err (Node × Bool)) = Except.ok (Node.objArr cells, false)
        rw [map_loadCell_cellEnc cells]
  | .scal v, _, hbw => Bool.noConfusion (show false = true from hbw)
  | .opq o, _, hbw => Bool.noConfusion (show false = true from hbw)
  | .group k es hid, hwf, hbw => by
      have hwf' : wfEntries es = true := by simpa only [wfNode] using hwf
      have hbw' : baseWritableE es = true := hbw
      obtain ⟨ch, hw, hl⟩ :=
        base_rt_entries es hwf' hbw' k .nil (fun nm _ => by simp [keysE])
      refine ⟨.hgroup [("__pyclass__", .bytes (.clsPkl ["pyDictH5", "base"] k.name))] ch, ?_, ?_⟩
      · simp only [to_hdf5_base, hw]
      · simp only [childDecode, load_hdf5_node, attrGet_pyclass_single,
          resolveClassAttr_known, instantiateCls, hl, Bool.false_or, stripHidden]
        rfl

theorem base_rt_entries : (es : NEntries) → wfEntries es = true →
    baseWritableE es = true → (k : KCls) → (acc : NEntries) →
    (∀ nm, nm ∈ keysE es → nm ∉ keysE acc) →
    ∃ ch, to_hdf5_base_entries es = .ok ch ∧
      load_children ch (.group k acc .nil) =
        .ok (.group k (appE acc (stripE es)) .nil, false)
  | .nil, _, _, k, acc, _ => by
      refine ⟨.nil, rfl, ?_⟩
      simp only [load_children, stripE, appE_nil]
  | .cons nm v rest, hwf, hbw, k, acc, hdisj => by
      rw [wfEntries_cons_iff] at hwf
      obtain ⟨hdot, hres, hnotin, hwfv, hwfrest⟩ := hwf
      have hbws : (baseWritable v && baseWritableE rest) = true := hbw
      rw [Bool.and_eq_true] at hbws
      obtain ⟨hn, hwv, hdec⟩ := base_rt_val v hwfv hbws.1
      have hmemhd : nm ∈ keysE (NEntries.cons nm v rest) := by
        simp [keysE]
      have hdisj' : ∀ m, m ∈ keysE rest →
          m ∉ keysE (appE acc (.cons nm (stripHidden v) .nil)) := by
        intro m hm
        rw [keysE_appE]
        simp only [keysE, List.mem_append, List.mem_cons, List.not_mem_nil, or_false]
        push_neg
        constructor
        · exact hdisj m (by simp [keysE, hm])
        · intro hmn
          exact hnotin (hmn ▸ hm)
      obtain ⟨ch, hwr, hlr⟩ :=
        base_rt_entries rest hwfrest hbws.2 k (appE acc (.cons nm (stripHidden v) .nil)) hdisj'
      refine ⟨.cons nm hn ch, ?_, ?_⟩
      · simp only [to_hdf5_base_entries, hwv, hwr]
      · have hset : setItemF (.group k acc .nil) nm (stripHidden v) =
            .ok (.group k (appE acc (.cons nm (stripHidden v) .nil)) .nil) := by
          have hrs : rsplitDot nm = none := by
            simp only [rsplitDot, hdot, Bool.false_eq_true, if_false]
          have hnd : nm ∉ dirOfAny (.group k acc (.nil : NEntries)) := by
            simp only [dirOfAny, keysE, List.append_nil]
            intro hmem
            exact hres (clsDir_sub_allReserved k nm hmem)
          simp only [setItemF, setTarget, hrs, if_neg hnd, updateAt, dictSetRaw]
          rw [upsertE_notmem acc nm _ (hdisj nm hmemhd)]
        rw [load_children_cons_eq]
        simp only [hdec, hset, hlr, Bool.false_or, Bool.or_false]
        rw [appE_assoc]
        simp only [appE, stripE]

end

theorem rt_val (v : Node) (hwf : wfNode v = true) (hio : ioWritable v = true) :
    ∃ hn, writeVal v = .ok hn ∧ childDecode hn = .ok (stripHidden v, false) := by
  cases v with
  | group k es hid => exact base_rt_val (.group k es hid) hwf hio
  | arr dt vs =>
      by_cases hdt : strStartsWith dt "datetime64" = true
      · refine ⟨.dataset [("_type", .str dt), ("__pyclass__", .bytes (pklDumpsType .ndarray))]
          (.strEnc vs), ?_, ?_⟩
        · simp only [writeVal, hdt, if_true]
        · have h1 : ¬ (some dt = some "pickled object") := by
            intro heq
            rw [Option.some_inj.mp heq] at hdt
            exact absurd hdt (by decide)
          have h2 : ¬ (some dt = some "non-array scalar") := by
            intro heq
            rw [Option.some_inj.mp heq] at hdt
            exact absurd hdt (by decide)
          simp only [childDecode, decodeDataset, attrGetStr_tagged, attrGet_tagged,
            loadLeafCls_ndarray, if_neg h1, if_neg h2, retagDt, hdt, if_true,
            Except.map, stripHidden]
      · refine ⟨.dataset [("__pyclass__", .bytes (pklDumpsType .ndarray))] (.numeric dt vs),
          ?_, ?_⟩
        · simp only [writeVal, hdt, if_false, Bool.false_eq_true]
        · simp only [childDecode, decodeDataset, attrGetStr_pyclass_single,
            attrGet_pyclass_single, loadLeafCls_ndarray, retagDt, Except.map, stripHidden]
          simp
  | objArr cells =>
      have hall : ∀ c ∈ cells,
          (match c with | CellV.pyNone => true | CellV.obj o => o.picklable) = true := by
        simpa only [wfNode, List.all_eq_true] using hwf
      refine ⟨.dataset [("_type", .str "NumPy Object Array"),
        ("__pyclass__", .bytes (pklDumpsType .ndarray))] (.vlen (cells.map cellEnc)), ?_, ?_⟩
      · simp only [writeVal, writeCells_map cells hall]
      · show (Except.ok (Node.objArr ((cells.map cellEnc).map loadCell), false) :
            Except Err (Node × Bool)) = Except.ok (Node.objArr cells, false)
        rw [map_loadCell_cellEnc cells]
  | scal v =>
      refine ⟨.dataset [("_type", .str "non-array scalar"),
        ("__pyclass__", .bytes (pklDumpsType (.builtin (scalTyName v))))] (.scalNative v), ?_, ?_⟩
      · rfl
      · cases v <;> rfl
  | opq o =>
      have hp : o.picklable = true := by simpa only [wfNode] using hwf
      refine ⟨.dataset [("_type", .str "pickled object"),
        ("__pyclass__", .bytes (pklDumpsType (.objCls o.tyName)))] (.scalBytes (.objPkl o)), ?_, ?_⟩
      · simp only [writeVal, hp, if_true]
      · rfl

theorem rt_entries : (es : NEntries) → wfEntries es = true → ioWritableE es = true →
    (k : KCls) → (acc : NEntries) →
    (∀ nm, nm ∈ keysE es → nm ∉ keysE acc) →
    ∃ ch, writeEntries es = .ok ch ∧
      load_children ch (.group k acc .nil) =
        .ok (.group k (appE acc (stripE es)) .nil, false)
  | .nil, _, _, k, acc, _ => by
      refine ⟨.nil, rfl, ?_⟩
      simp only [load_children, stripE, appE_nil]
  | .cons nm v rest, hwf, hio, k, acc, hdisj => by
      rw [wfEntries_cons_iff] at hwf
      obtain ⟨hdot, hres, hnotin, hwfv, hwfrest⟩ := hwf
      have hios : (ioWritable v && ioWritableE rest) = true := hio
      rw [Bool.and_eq_true] at hios
      obtain ⟨hn, hwv, hdec⟩ := rt_val v hwfv hios.1
      have hmemhd : nm ∈ keysE (NEntries.cons nm v rest) := by
        simp [keysE]
      have hdisj' : ∀ m, m ∈ keysE rest →
          m ∉ keysE (appE acc (.cons nm (stripHidden v) .nil)) := by
        intro m hm
        rw [keysE_appE]
        simp only [keysE, List.mem_append, List.mem_cons, List.not_mem_nil, or_false]
        push_neg
        constructor
        · exact hdisj m (by simp [keysE, hm])
        · intro hmn
          exact hnotin (hmn ▸ hm)
      obtain ⟨ch, hwr, hlr⟩ :=
        rt_entries rest hwfrest hios.2 k (appE acc (.cons nm (stripHidden v) .nil)) hdisj'
      refine ⟨.cons nm hn ch, ?_, ?_⟩
      · simp only [writeEntries, hwv, hwr]
      · have hset : setItemF (.group k acc .nil) nm (stripHidden v) =
            .ok (.group k (appE acc (.cons nm (stripHidden v) .nil)) .nil) := by
          have hrs : rsplitDot nm = none := by
            simp only [rsplitDot, hdot, Bool.false_eq_true, if_false]
          have hnd : nm ∉ dirOfAny (.group k acc (.nil : NEntries)) := by
            simp only [dirOfAny, keysE, List.append_nil]
            intro hmem
            exact hres (clsDir_sub_allReserved k nm hmem)
          simp only [setItemF, setTarget, hrs, if_neg hnd, updateAt, dictSetRaw]
          rw [upsertE_notmem acc nm _ (hdisj nm hmemhd)]
        rw [load_children_cons_eq]
        simp only [hdec, hset, hlr, Bool.false_or, Bool.or_false]
        rw [appE_assoc]
        simp only [appE, stripE]

/-! ## The loaded instance is `equals`-equivalent to the original -/

theorem keysetEq_refl (l : List String) : keysetEq l l = true := by
  simp [keysetEq, List.all_eq_true]

mutual

theorem equivVal_strip : (v : Node) → wfNode v = true →
    equivVal (stripHidden v) v = true
  | .arr dt vs, _ => by simp [stripHidden, equivVal]
  | .objArr cs, _ => by simp [stripHidden, equivVal]
  | .scal v, _ => by cases v <;> simp [stripHidden, equivVal, pyEqScal]
  | .opq o, _ => by simp [stripHidden, equivVal]
  | .group k es hid, hwf => by
      have hwf' : wfEntries es = true := by simpa only [wfNode] using hwf
      simp only [stripHidden, equivVal, keysE_stripE, Bool.and_eq_true]
      refine ⟨⟨by simp, keysetEq_refl _⟩, ?_⟩
      exact equivAll_strip es hwf' es
        (fun nm v h => entryMem_lookup_of_wf es nm v hwf' h)

theorem equivAll_strip : (es : NEntries) → wfEntries es = true → (full : NEntries) →
    (∀ nm v, entryMem nm v es → lookupE full nm = some v) →
    equivAll (stripE es) full = true
  | .nil, _, _, _ => rfl
  | .cons nm v rest, hwf, full, hlk => by
      rw [wfEntries_cons_iff] at hwf
      have h1 : lookupE full nm = some v := hlk nm v (Or.inl ⟨rfl, rfl⟩)
      simp only [stripE, equivAll, h1, Bool.and_eq_true]
      exact ⟨equivVal_strip v hwf.2.2.2.1,
        equivAll_strip rest hwf.2.2.2.2 full (fun nm' v' h => hlk nm' v' (Or.inr h))⟩

end

theorem eqData_strip (k : KCls) (es hid : NEntries) (hwf : wfEntries es = true) :
    eqData (.group k (stripE es) .nil) (.group k es hid) = true := by
  simp only [eqData, keysE_stripE, Bool.and_eq_true]
  refine ⟨⟨by simp, keysetEq_refl _⟩, ?_⟩
  exact equivAll_strip es hwf es (fun nm v h => entryMem_lookup_of_wf es nm v hwf h)

/-! ## The claims -/

/-- C1 (corrected): for every container instance `d` (a `data` subclass
instance whose tree satisfies the data-model invariants `wfNode`:
separator-free, non-reserved, unique keys, picklable opaque payloads — the
closed leaf-kind set of §3) that is moreover serializable (`ioWritableE`:
every nested Group holds, recursively, only non-temporal arrays, object
arrays, and further such Groups — nested groups are written by
`data.to_hdf5`, src/base.py:279-307, which lacks the scalar, pickled-object
and datetime64 branches of src/io.py), deserializing the store produced by
serializing `d` succeeds and yields an instance `out` with `out.equals(d)`
true (`deserialize(serialize(d)).equals(d)`).  The counterexample shows a
well-formed instance with a nested native-scalar leaf on which
serialization raises instead. -/
theorem c1_serialize_roundtrip (k : KCls) (es hid : NEntries)
    (hwf : wfNode (.group k es hid) = true)
    (hio : ioWritableE es = true) :
    ∃ s out,
      hdf5_write_call (.group k es hid) = ⟨.ok s, true⟩ ∧
      load_hdf5_call s = ⟨.ok (out, false), true⟩ ∧
      eqData out (.group k es hid) = true := by
  have hwf' : wfEntries es = true := by simpa only [wfNode] using hwf
  obtain ⟨ch, hw, hl⟩ := rt_entries es hwf' hio k .nil (fun nm _ => by simp [keysE])
  refine ⟨.hgroup [("__package_name__", .str pkgName), ("__version__", .str verStr),
    ("__pyclass__", .bytes (.clsPkl ["pyDictH5", "base"] k.name))] ch,
    .group k (stripE es) .nil, ?_, ?_, ?_⟩
  · simp only [hdf5_write_call, hdf5_write_top, hw]
  · have hattr : attrGet [("__package_name__", AttrVal.str pkgName),
        ("__version__", AttrVal.str verStr),
        ("__pyclass__", AttrVal.bytes (.clsPkl ["pyDictH5", "base"] k.name))]
        "__pyclass__" = some (.bytes (.clsPkl ["pyDictH5", "base"] k.name)) := rfl
    simp only [load_hdf5_call, load_hdf5_node, hattr, resolveClassAttr_known,
      instantiateCls, hl, Bool.false_or]
    rfl
  · exact eqData_strip k es hid hwf'

/-- Counterexample for C1 as stated: a well-formed instance whose nested
flat Group holds a native string scalar.  The spec's round-trip claim
covers it, but `hdf5_write` delegates the nested group to `data.to_hdf5`
(src/io.py:20), which reaches `dat.dtype` on the scalar
(src/base.py:296) and raises AttributeError, aborting serialization with
the file handle left open. -/
theorem c1_counterexample :
    wfNode (.group .data (.cons "sub" (.group .flat
      (.cons "s" (.scal (.s "hi")) .nil) .nil) .nil) .nil) = true ∧
    hdf5_write_call (.group .data (.cons "sub" (.group .flat
      (.cons "s" (.scal (.s "hi")) .nil) .nil) .nil) .nil) =
      ⟨.error .attributeError, false⟩ := ⟨rfl, rfl⟩

/-- Witness for C1: a concrete instance exercising every serializable leaf
kind at the root (numeric array, temporal array, object array with a null,
native scalar, opaque scalar, an array-only nested flat group, and a
transient attribute). -/
theorem c1_serialize_roundtrip_witness :
    wfNode (.group .data (.cons "x" (.arr "int64" [1, 2, 3])
      (.cons "s" (.scal (.s "hi"))
      (.cons "o" (.objArr [.pyNone, .obj ⟨"W", 7, true⟩])
      (.cons "t" (.arr "datetime64[ns]" [5, 6])
      (.cons "p" (.opq ⟨"Z", 3, true⟩)
      (.cons "sub" (.group .flat (.cons "u" (.arr "f8" [1]) .nil) .nil) .nil))))))
      (.cons "_tmp" (.scal (.i 1)) .nil)) = true ∧
    ioWritableE (.cons "x" (.arr "int64" [1, 2, 3])
      (.cons "s" (.scal (.s "hi"))
      (.cons "o" (.objArr [.pyNone, .obj ⟨"W", 7, true⟩])
      (.cons "t" (.arr "datetime64[ns]" [5, 6])
      (.cons "p" (.opq ⟨"Z", 3, true⟩)
      (.cons "sub" (.group .flat (.cons "u" (.arr "f8" [1]) .nil) .nil) .nil)))))) = true ∧
    (∃ s out,
      hdf5_write_call (.group .data (.cons "x" (.arr "int64" [1, 2, 3])
        (.cons "s" (.scal (.s "hi"))
        (.cons "o" (.objArr [.pyNone, .obj ⟨"W", 7, true⟩])
        (.cons "t" (.arr "datetime64[ns]" [5, 6])
        (.cons "p" (.opq ⟨"Z", 3, true⟩)
        (.cons "sub" (.group .flat (.cons "u" (.arr "f8" [1]) .nil) .nil) .nil))))))
        (.cons "_tmp" (.scal (.i 1)) .nil)) = ⟨.ok s, true⟩ ∧
      load_hdf5_call s = ⟨.ok (out, false), true⟩ ∧
      eqData out (.group .data (.cons "x" (.arr "int64" [1, 2, 3])
        (.cons "s" (.scal (.s "hi"))
        (.cons "o" (.objArr [.pyNone, .obj ⟨"W", 7, true⟩])
        (.cons "t" (.arr "datetime64[ns]" [5, 6])
        (.cons "p" (.opq ⟨"Z", 3, true⟩)
        (.cons "sub" (.group .flat (.cons "u" (.arr "f8" [1]) .nil) .nil) .nil))))))
        (.cons "_tmp" (.scal (.i 1)) .nil)) = true) :=
  ⟨by rfl, by rfl, c1_serialize_roundtrip _ _ _ (by rfl) (by rfl)⟩

/-! ## C2: subclass-resolution fallback -/

theorem resolveLoopGo_allfail (name : String) : (l : List (List String)) →
    (∀ c ∈ l, importOk c = false) →
    resolveLoopGo name l = .ok (.container .data, true)
  | [], _ => rfl
  | c :: cs, h => by
      have hc : importOk c = false := h c (List.mem_cons_self _ _)
      simp only [resolveLoopGo, pklLoadsCls, hc, Bool.false_eq_true, if_false]
      exact resolveLoopGo_allfail name cs (fun c hc => h c (List.mem_cons_of_mem _ hc))

/-- C2 (corrected): when the recorded subclass identity is unresolvable
because no candidate module path (original or with leading segments
stripped) is importable, `load_hdf5` emits the warning, instantiates the
generic `data` class, returns successfully, and the content of any store
`hdf5_write` can produce (`ioWritableE` entries) still round-trips.  (As
the counterexample shows, an identity that is unresolvable because an
importable module lacks the class makes the load raise instead: the
candidate loop catches only ImportError, src/io.py:95-98.) -/
theorem c2_unresolvable_fallback (k : KCls) (es hid : NEntries)
    (hwf : wfNode (.group k es hid) = true)
    (hio : ioWritableE es = true)
    (mod : List String) (name : String)
    (hunres : ∀ c ∈ clsCandidates mod, importOk c = false) :
    ∃ ch, writeEntries es = .ok ch ∧
      load_hdf5_call (.hgroup [("__pyclass__", .bytes (.clsPkl mod name))] ch) =
        ⟨.ok (.group .data (stripE es) .nil, true), true⟩ := by
  have hwf' : wfEntries es = true := by simpa only [wfNode] using hwf
  obtain ⟨ch, hw, hl⟩ := rt_entries es hwf' hio .data .nil (fun nm _ => by simp [keysE])
  refine ⟨ch, hw, ?_⟩
  have hres : resolveClassAttr (.clsPkl mod name) = .ok (.container .data, true) := by
    simp only [resolveClassAttr]
    exact resolveLoopGo_allfail name _ hunres
  simp only [load_hdf5_call, load_hdf5_node, attrGet_pyclass_single, hres,
    instantiateCls, hl, Bool.true_or]
  rfl

/-- C2 counterexample: a store whose recorded identity names a class
missing from a module that does import (the module path `pyDictH5.base`
resolves, the class name does not).  The claim asserts deserialization
never raises for an unresolvable subclass identity; the candidate loop of
src/io.py:95-98 catches only ImportError, so the AttributeError from
unpickling propagates and the load fails. -/
theorem c2_counterexample :
    load_hdf5_call (.hgroup [("__pyclass__",
        .bytes (.clsPkl ["pyDictH5", "base"] "MovedClass"))] .nil) =
      ⟨.error .attributeError, true⟩ := rfl

/-- Witness for C2: a concrete store written from a one-entry group whose
root class attribute records a fully unimportable module path. -/
theorem c2_unresolvable_fallback_witness :
    wfNode (.group .flat (.cons "x" (.arr "i8" [1, 2]) .nil) .nil) = true ∧
    ioWritableE (.cons "x" (.arr "i8" [1, 2]) .nil) = true ∧
    (∀ c ∈ clsCandidates ["oldpkg", "oldmod"], importOk c = false) ∧
    (∃ ch, writeEntries (.cons "x" (.arr "i8" [1, 2]) .nil) = .ok ch ∧
      load_hdf5_call (.hgroup [("__pyclass__",
          .bytes (.clsPkl ["oldpkg", "oldmod"] "Widget"))] ch) =
        ⟨.ok (.group .data (stripE (.cons "x" (.arr "i8" [1, 2]) .nil)) .nil, true), true⟩) :=
  ⟨by rfl, by rfl, by decide,
    c2_unresolvable_fallback .flat _ .nil (by rfl) (by rfl)
      ["oldpkg", "oldmod"] "Widget" (by decide)⟩

/-! ## C8: object-array serialization -/

/-- C8 (corrected): serialization writes one pickled byte string per
object-array element under the `NumPy Object Array` tag; a null element is
written as the pickle of `None`, which is a NON-empty byte string (the
counterexample refutes the claim's empty-byte-string clause);
deserialization restores every empty byte-string cell as a null element
and every pickled cell structurally equal to the original, so nulls and
values round-trip. -/
theorem c8_objarray_cells (cells : List CellV)
    (hwf : wfNode (.objArr cells) = true) :
    writeVal (.objArr cells) =
      .ok (.dataset [("_type", .str "NumPy Object Array"),
        ("__pyclass__", .bytes (pklDumpsType .ndarray))] (.vlen (cells.map cellEnc))) ∧
    (∀ b ∈ cells.map cellEnc, b ≠ Bytes.empty) ∧
    decodeDataset [("_type", .str "NumPy Object Array"),
        ("__pyclass__", .bytes (pklDumpsType .ndarray))] (.vlen (cells.map cellEnc)) =
      .ok (.objArr cells) ∧
    loadCell .empty = .pyNone := by
  have hall : ∀ c ∈ cells,
      (match c with | CellV.pyNone => true | CellV.obj o => o.picklable) = true := by
    simpa only [wfNode, List.all_eq_true] using hwf
  refine ⟨?_, ?_, ?_, rfl⟩
  · simp only [writeVal, writeCells_map cells hall]
  · intro b hb
    rcases List.mem_map.mp hb with ⟨c, _, rfl⟩
    cases c <;> simp [cellEnc]
  · show Except.ok (Node.objArr ((cells.map cellEnc).map loadCell)) =
      Except.ok (Node.objArr cells)
    rw [map_loadCell_cellEnc]

/-- C8 counterexample: a one-element object array holding only the null
placeholder.  The claim says the null element is written as an empty byte
string; `hdf5_write` writes `pickle.dumps(None)` (src/io.py:37), which is
not the empty byte string. -/
theorem c8_counterexample :
    writeVal (.objArr [CellV.pyNone]) =
      .ok (.dataset [("_type", .str "NumPy Object Array"),
        ("__pyclass__", .bytes (pklDumpsType .ndarray))] (.vlen [Bytes.nonePkl])) ∧
    Bytes.nonePkl ≠ Bytes.empty := ⟨rfl, by decide⟩

/-- Witness for C8 at a mixed object array with a null and a value. -/
theorem c8_objarray_cells_witness :
    wfNode (.objArr [CellV.pyNone, CellV.obj ⟨"W", 7, true⟩]) = true ∧
    (writeVal (.objArr [CellV.pyNone, CellV.obj ⟨"W", 7, true⟩]) =
      .ok (.dataset [("_type", .str "NumPy Object Array"),
        ("__pyclass__", .bytes (pklDumpsType .ndarray))]
        (.vlen ([CellV.pyNone, CellV.obj ⟨"W", 7, true⟩].map cellEnc))) ∧
    (∀ b ∈ [CellV.pyNone, CellV.obj ⟨"W", 7, true⟩].map cellEnc, b ≠ Bytes.empty) ∧
    decodeDataset [("_type", .str "NumPy Object Array"),
        ("__pyclass__", .bytes (pklDumpsType .ndarray))]
        (.vlen ([CellV.pyNone, CellV.obj ⟨"W", 7, true⟩].map cellEnc)) =
      .ok (.objArr [CellV.pyNone, CellV.obj ⟨"W", 7, true⟩]) ∧
    loadCell .empty = .pyNone) :=
  ⟨by rfl, c8_objarray_cells _ (by rfl)⟩

/-! ## C9: file-handle scoping -/

/-- C9 (corrected): `load_hdf5` on a path opens the file in a `with` block
and closes it on every exit path; `hdf5_write` on a path closes the file
only by the `buf.close()` after the write loop (src/io.py:61-62, with no
try/finally), so the handle is closed exactly when the call succeeds and
is left open when the call aborts with an error. -/
theorem c9_handle_scoping :
    (∀ d : Node, (hdf5_write_call d).closed = (hdf5_write_call d).result.isOk) ∧
    (∀ s : HNode, (load_hdf5_call s).closed = true) := by
  constructor
  · intro d
    simp only [hdf5_write_call]
    cases hdf5_write_top d <;> rfl
  · intro s
    rfl

/-- C9 counterexample: serializing a group with an unpicklable opaque
scalar aborts with an error after the file was opened, and the handle is
left open — refuting the claim that the store file is closed on every
exit path of `serialize`. -/
theorem c9_counterexample :
    hdf5_write_call (.group .data
        (.cons "f" (.opq ⟨"lambda", 0, false⟩) .nil) .nil) =
      ⟨.error .pickleError, false⟩ := rfl

/-! ## C4: transient attributes -/

theorem strData_append (s t : String) : (s ++ t).data = s.data ++ t.data := rfl

theorem dotted_ne_tmp (nm t : String) : nm ++ "." ++ t ≠ "_tmp" := by
  intro heq
  have hd : (nm ++ "." ++ t).data = "_tmp".data := by rw [heq]
  rw [strData_append, strData_append] at hd
  have hmem : '.' ∈ "_tmp".data := by
    rw [← hd]
    simp
  exact absurd hmem (by decide)

theorem iterDataGo_ne_tmp : (es : NEntries) → "_tmp" ∉ keysE es →
    "_tmp" ∉ iterDataGo es false
  | .nil, _ => by simp [iterDataGo]
  | .cons nm v rest, h => by
      rw [keysE, List.mem_cons] at h
      push_neg at h
      have htail := iterDataGo_ne_tmp rest h.2
      cases v with
      | group kc es2 h2 =>
          intro hmem
          rcases List.mem_append.mp hmem with hm | hm
          · by_cases hs : (!false && strStartsWith nm "_") = true
            · rw [if_pos hs] at hm
              cases hm
            · rw [if_neg hs] at hm
              rcases List.mem_map.mp hm with ⟨p, _, hp⟩
              exact dotted_ne_tmp nm p hp
          · exact htail hm
      | arr dt vals =>
          intro hmem
          rcases List.mem_append.mp hmem with hm | hm
          · by_cases hs : (!false && strStartsWith nm "_") = true
            · rw [if_pos hs] at hm
              cases hm
            · rw [if_neg hs] at hm
              exact h.1 (List.mem_singleton.mp hm)
          · exact htail hm
      | objArr cs =>
          intro hmem
          rcases List.mem_append.mp hmem with hm | hm
          · by_cases hs : (!false && strStartsWith nm "_") = true
            · rw [if_pos hs] at hm
              cases hm
            · rw [if_neg hs] at hm
              exact h.1 (List.mem_singleton.mp hm)
          · exact htail hm
      | scal sv =>
          intro hmem
          rcases List.mem_append.mp hmem with hm | hm
          · by_cases hs : (!false && strStartsWith nm "_") = true
            · rw [if_pos hs] at hm
              cases hm
            · rw [if_neg hs] at hm
              exact h.1 (List.mem_singleton.mp hm)
          · exact htail hm
      | opq o =>
          intro hmem
          rcases List.mem_append.mp hmem with hm | hm
          · by_cases hs : (!false && strStartsWith nm "_") = true
            · rw [if_pos hs] at hm
              cases hm
            · rw [if_neg hs] at hm
              exact h.1 (List.mem_singleton.mp hm)
          · exact htail hm

/-- C4 (corrected): for a serializable instance (`ioWritableE` entries),
after setting the transient attribute `g._tmp = x`, serializing and
deserializing yields an instance that does not contain `_tmp`, and the
default leaf iteration excludes `_tmp`; but `g.contains('_tmp')` on the
original instance is FALSE, not true as the claim states — `__contains__`
(src/base.py:165-170) consults only the dict entries, and the transient
value lives in the instance `__dict__` (src/base.py:256-263). -/
theorem c4_transient_attr (k : KCls) (es hid : NEntries) (x : Node)
    (hwf : wfNode (.group k es hid) = true)
    (hio : ioWritableE es = true)
    (hnk : "_tmp" ∉ keysE es) :
    ∃ g' s out,
      setattrF (.group k es hid) "_tmp" x = .ok g' ∧
      hdf5_write_call g' = ⟨.ok s, true⟩ ∧
      load_hdf5_call s = ⟨.ok (out, false), true⟩ ∧
      containsF out "_tmp" = .ok false ∧
      containsF g' "_tmp" = .ok false ∧
      "_tmp" ∉ iterData g' false := by
  have hwf' : wfEntries es = true := by simpa only [wfNode] using hwf
  have hlk : lookupE es "_tmp" = none := lookupE_eq_none es _ hnk
  have hcontq : containsF (.group k es hid) "_tmp" = .ok false := by
    simp only [containsF, getItemF, resolveAccess,
      if_pos (by decide : ¬ strContains "_tmp" '.' = true), dictGetE, hlk]
  have hset : setattrF (.group k es hid) "_tmp" x =
      .ok (.group k es (upsertE hid "_tmp" x)) := by
    simp only [setattrF, (by decide : strStartsWith "_tmp" "_" = true), if_true, hcontq]
  obtain ⟨ch, hw, hl⟩ := rt_entries es hwf' hio k .nil (fun nm _ => by simp [keysE])
  refine ⟨.group k es (upsertE hid "_tmp" x),
    .hgroup [("__package_name__", .str pkgName), ("__version__", .str verStr),
      ("__pyclass__", .bytes (.clsPkl ["pyDictH5", "base"] k.name))] ch,
    .group k (stripE es) .nil, hset, ?_, ?_, ?_, ?_, ?_⟩
  · simp only [hdf5_write_call, hdf5_write_top, hw]
  · have hattr : attrGet [("__package_name__", AttrVal.str pkgName),
        ("__version__", AttrVal.str verStr),
        ("__pyclass__", AttrVal.bytes (.clsPkl ["pyDictH5", "base"] k.name))]
        "__pyclass__" = some (.bytes (.clsPkl ["pyDictH5", "base"] k.name)) := rfl
    simp only [load_hdf5_call, load_hdf5_node, hattr, resolveClassAttr_known,
      instantiateCls, hl, Bool.false_or]
    rfl
  · have hlk2 : lookupE (stripE es) "_tmp" = none := by
      rw [lookupE_stripE, hlk]
      rfl
    simp only [containsF, getItemF, resolveAccess,
      if_pos (by decide : ¬ strContains "_tmp" '.' = true), dictGetE, hlk2]
  · simp only [containsF, getItemF, resolveAccess,
      if_pos (by decide : ¬ strContains "_tmp" '.' = true), dictGetE, hlk]
  · simp only [iterData]
    exact iterDataGo_ne_tmp es hnk

/-- C4 counterexample: on a concrete fresh instance, `g._tmp = x` stores a
transient instance attribute, and `g.contains('_tmp')` is false — the
claim asserts it is true. -/
theorem c4_counterexample :
    setattrF (.group .data (.cons "x" (.arr "int64" [1]) .nil) .nil) "_tmp" (.scal (.i 1)) =
      .ok (.group .data (.cons "x" (.arr "int64" [1]) .nil)
        (.cons "_tmp" (.scal (.i 1)) .nil)) ∧
    containsF (.group .data (.cons "x" (.arr "int64" [1]) .nil)
      (.cons "_tmp" (.scal (.i 1)) .nil)) "_tmp" = .ok false := ⟨rfl, rfl⟩

/-- Witness for C4 at a concrete one-entry instance. -/
theorem c4_transient_attr_witness :
    wfNode (.group .data (.cons "y" (.arr "f8" [2]) .nil) .nil) = true ∧
    ioWritableE (.cons "y" (.arr "f8" [2]) .nil) = true ∧
    "_tmp" ∉ keysE (NEntries.cons "y" (.arr "f8" [2]) .nil) ∧
    (∃ g' s out,
      setattrF (.group .data (.cons "y" (.arr "f8" [2]) .nil) .nil) "_tmp"
        (.scal (.i 7)) = .ok g' ∧
      hdf5_write_call g' = ⟨.ok s, true⟩ ∧
      load_hdf5_call s = ⟨.ok (out, false), true⟩ ∧
      containsF out "_tmp" = .ok false ∧
      containsF g' "_tmp" = .ok false ∧
      "_tmp" ∉ iterData g' false) :=
  ⟨by rfl, by rfl, by decide,
    c4_transient_attr .data _ .nil (.scal (.i 7)) (by rfl) (by rfl) (by decide)⟩

/-! ## C5: dotted-path equivalence -/

/-- C5: for a well-formed group `g` with a nested group under key `a`
containing a member `b`, `g['a.b']` equals `g['a']['b']`
(src/base.py:138-148: the literal whole-key lookup misses because
well-formed keys contain no separator, and the split-and-descend loop
takes the same two steps as the composed lookups). -/
theorem c5_dotted_path (k : KCls) (es hid : NEntries)
    (ka : KCls) (esa hida : NEntries) (x : Node)
    (hwf : wfEntries es = true)
    (ha : lookupE es "a" = some (.group ka esa hida))
    (hb : lookupE esa "b" = some x) :
    getItemF (.group k es hid) "a.b" = .ok x ∧
    getItemF (.group k es hid) "a.b" =
      (match getItemF (.group k es hid) "a" with
       | .ok ga => getItemF ga "b"
       | .error e => .error e) := by
  have hab : lookupE es "a.b" = none := by
    apply lookupE_eq_none
    intro hm
    have := wf_keys_nodot es "a.b" hwf hm
    exact absurd this (by decide)
  have h1 : getItemF (.group k es hid) "a.b" = .ok x := by
    have hsp : splitDot "a.b" = ["a", "b"] := rfl
    simp only [getItemF, resolveAccess,
      if_neg (by decide : ¬ ¬ strContains "a.b" '.' = true), dictGetE, hab, hsp,
      descendAcc, ha, hb]
  have h2 : getItemF (.group k es hid) "a" = .ok (.group ka esa hida) := by
    simp only [getItemF, resolveAccess,
      if_pos (by decide : ¬ strContains "a" '.' = true), dictGetE, ha]
  have h3 : getItemF (.group ka esa hida) "b" = .ok x := by
    simp only [getItemF, resolveAccess,
      if_pos (by decide : ¬ strContains "b" '.' = true), dictGetE, hb]
  refine ⟨h1, ?_⟩
  rw [h1, h2]
  exact h3.symm

/-- Witness for C5 at a concrete two-level group. -/
theorem c5_dotted_path_witness :
    wfEntries (NEntries.cons "a"
      (.group .data (.cons "b" (.scal (.i 7)) .nil) .nil) .nil) = true ∧
    (getItemF (.group .data (.cons "a"
        (.group .data (.cons "b" (.scal (.i 7)) .nil) .nil) .nil) .nil) "a.b" =
      .ok (.scal (.i 7)) ∧
    getItemF (.group .data (.cons "a"
        (.group .data (.cons "b" (.scal (.i 7)) .nil) .nil) .nil) .nil) "a.b" =
      (match getItemF (.group .data (.cons "a"
          (.group .data (.cons "b" (.scal (.i 7)) .nil) .nil) .nil) .nil) "a" with
       | .ok ga => getItemF ga "b"
       | .error e => .error e)) :=
  ⟨by rfl, c5_dotted_path .data _ .nil .data _ .nil _ (by rfl) rfl rfl⟩

/-! ## C6: reserved-name rejection -/

/-- C6: whenever `set(path, value)` resolves its target object and the
path's leaf key collides with an attribute name of that object,
`data.__setitem__` raises the reserved-name KeyError before any write is
performed (src/base.py:160-163); in this functional model the error return
carries no updated mapping, so the write is never applied. -/
theorem c6_reserved_name (g : Node) (path : String) (v : Node)
    (p : List String) (leaf : String) (tmp : Node)
    (hres : setTarget g path = .ok (p, leaf, tmp))
    (hdir : leaf ∈ dirOfAny tmp) :
    setItemF g path v = .error .reservedName := by
  simp only [setItemF, hres, if_pos hdir]

/-- Witness for C6: setting key `keys` (a dict attribute name) on a
concrete flat instance, both as a direct key and as a dotted path. -/
theorem c6_reserved_name_witness :
    setTarget (.group .flat (.cons "u" (.arr "f8" [1]) .nil) .nil) "keys" =
      .ok ([], "keys", .group .flat (.cons "u" (.arr "f8" [1]) .nil) .nil) ∧
    "keys" ∈ dirOfAny (.group .flat (.cons "u" (.arr "f8" [1]) .nil) .nil) ∧
    setItemF (.group .flat (.cons "u" (.arr "f8" [1]) .nil) .nil) "keys"
      (.scal (.i 1)) = .error .reservedName :=
  ⟨rfl, by decide, c6_reserved_name _ _ _ _ _ _ rfl (by decide)⟩

/-! ## C10: attribute/item duality -/

/-- C10 (corrected): for every name `nm` that does not begin with an
underscore, contains no separator, and does not collide with an attribute
name of the instance, `d.nm = v` stores `v` under key `nm` and both
`d['nm']` and `d.nm` read back `v`.  (As the counterexample shows, the
original claim fails for reserved names such as `keys`: `__setattr__`
forwards to `__setitem__`, whose `dir` check raises and nothing is
stored.) -/
theorem c10_attr_item_duality (k : KCls) (es hid : NEntries) (nm : String) (v : Node)
    (h1 : strStartsWith nm "_" = false)
    (h2 : strContains nm '.' = false)
    (h3 : nm ∉ dirOfAny (.group k es hid)) :
    setattrF (.group k es hid) nm v = .ok (.group k (upsertE es nm v) hid) ∧
    getItemF (.group k (upsertE es nm v) hid) nm = .ok v ∧
    getattrF (.group k (upsertE es nm v) hid) nm = .ok (.val v) := by
  have hrs : rsplitDot nm = none := by
    simp only [rsplitDot, h2, Bool.false_eq_true, if_false]
  have hset : setItemF (.group k es hid) nm v = .ok (.group k (upsertE es nm v) hid) := by
    simp only [setItemF, setTarget, hrs, if_neg h3, updateAt, dictSetRaw]
  have hget : getItemF (.group k (upsertE es nm v) hid) nm = .ok v := by
    simp only [getItemF, resolveAccess, h2, Bool.false_eq_true, not_false_eq_true,
      if_pos, dictGetE, lookupE_upsert_self]
  refine ⟨?_, hget, ?_⟩
  · simp only [setattrF, h1, Bool.false_eq_true, if_false, hset]
  · have hncd : nm ∉ clsDir k := fun hm => h3 (by
      simp only [dirOfAny, List.mem_append]
      exact Or.inl hm)
    have hnh : lookupE hid nm = none := lookupE_eq_none hid nm (fun hm => h3 (by
      simp only [dirOfAny, List.mem_append]
      exact Or.inr hm))
    simp only [getattrF, if_neg hncd, hnh, hget]

/-- C10 counterexample: `nm = "keys"` does not begin with an underscore,
yet `d.keys = v` raises the reserved-name KeyError and stores nothing —
refuting the claim's universal quantification over all such names. -/
theorem c10_counterexample :
    setattrF (.group .data .nil .nil) "keys" (.scal (.i 1)) =
      .error .reservedName := rfl

/-- Witness for C10 at a concrete non-reserved name. -/
theorem c10_attr_item_duality_witness :
    strStartsWith "vel" "_" = false ∧ strContains "vel" '.' = false ∧
    "vel" ∉ dirOfAny (.group .flat .nil .nil) ∧
    (setattrF (.group .flat .nil .nil) "vel" (.arr "f8" [1]) =
      .ok (.group .flat (upsertE .nil "vel" (.arr "f8" [1])) .nil) ∧
    getItemF (.group .flat (upsertE .nil "vel" (.arr "f8" [1])) .nil) "vel" =
      .ok (.arr "f8" [1]) ∧
    getattrF (.group .flat (upsertE .nil "vel" (.arr "f8" [1])) .nil) "vel" =
      .ok (.val (.arr "f8" [1]))) :=
  ⟨by decide, by decide, by decide,
    c10_attr_item_duality .flat .nil .nil "vel" (.arr "f8" [1])
      (by decide) (by decide) (by decide)⟩

/-! ## C3: append -/

theorem appendLoop_ok (es : NEntries) (other : Node) (hap : Appendable es other) :
    wfEntries es = true → ∀ (k : KCls) (fs : NEntries),
    (∀ nm, nm ∈ keysE es → nm ∈ keysE fs) →
    ∃ fs', appendLoop es (.group k fs .nil) other = .ok (.group k fs' .nil) ∧
      keysE fs' = keysE fs ∧
      (∀ nm dt vals dt2 w, entryMem nm (.arr dt vals) es →
         getItemF other nm = .ok (.arr dt2 w) →
         lookupE fs' nm = some (.arr dt (vals ++ w))) ∧
      (∀ nm kc esc hc, entryMem nm (.group kc esc hc) es →
         ∃ oc res, getItemF other nm = .ok oc ∧
           appendF (.group kc esc hc) oc = .ok res ∧
           lookupE fs' nm = some res) ∧
      (∀ nm, nm ∉ keysE es → lookupE fs' nm = lookupE fs nm) := by
  induction hap with
  | nil o =>
      intro _ k fs _
      exact ⟨fs, rfl, rfl, fun _ _ _ _ _ h => h.elim, fun _ _ _ _ h => h.elim,
        fun _ _ => rfl⟩
  | consArr hko hrest ih =>
      rename_i nm dt vals rest o dt2 w
      intro hwf k fs hsub
      rw [wfEntries_cons_iff] at hwf
      obtain ⟨hdot, hres, hnotin, _, hwfrest⟩ := hwf
      have hconcat : concatNodes (.arr dt vals) (.arr dt2 w) =
          .ok (.arr dt (vals ++ w)) := rfl
      have hset : setItemF (.group k fs .nil) nm (.arr dt (vals ++ w)) =
          .ok (.group k (upsertE fs nm (.arr dt (vals ++ w))) .nil) := by
        have hrs : rsplitDot nm = none := by
          simp only [rsplitDot, hdot, Bool.false_eq_true, if_false]
        have hnd : nm ∉ dirOfAny (.group k fs (.nil : NEntries)) := by
          simp only [dirOfAny, keysE, List.append_nil]
          intro hmem
          exact hres (clsDir_sub_allReserved k nm hmem)
        simp only [setItemF, setTarget, hrs, if_neg hnd, updateAt, dictSetRaw]
      have hmemfs : nm ∈ keysE fs := hsub nm (by simp [keysE])
      obtain ⟨fs', hloop, hkeys, hpt, hptg, hout⟩ := ih hwfrest k
        (upsertE fs nm (.arr dt (vals ++ w)))
        (fun nm' h => by
          rw [keysE_upsert_mem fs nm _ hmemfs]
          exact hsub nm' (by simp [keysE, h]))
      refine ⟨fs', ?_, ?_, ?_, ?_, ?_⟩
      · simp only [appendLoop, hko, hconcat, hset, hloop]
      · rw [hkeys, keysE_upsert_mem fs nm _ hmemfs]
      · intro nm' dt' vals' dt2' w' hm hko'
        rcases hm with ⟨h1, h2⟩ | hm
        · subst h1
          injection h2 with hdt hvals
          subst hdt
          subst hvals
          rw [hko] at hko'
          injection hko' with hx
          injection hx with _ hw
          subst hw
          rw [hout nm' hnotin, lookupE_upsert_self]
        · exact hpt nm' dt' vals' dt2' w' hm hko'
      · intro nm' kc' esc' hc' hm
        rcases hm with ⟨h1, h2⟩ | hm
        · exact Node.noConfusion h2
        · exact hptg nm' kc' esc' hc' hm
      · intro nm' h
        rw [keysE, List.mem_cons] at h
        push_neg at h
        rw [hout nm' h.2, lookupE_upsert_ne fs nm nm' _ (fun he => h.1 he.symm)]
  | consFlat hflat hko hch hrest ihc ihrest =>
      rename_i nm kc esc rest o oc
      intro hwf k fs hsub
      rw [wfEntries_cons_iff] at hwf
      obtain ⟨hdot, hres, hnotin, hwfv, hwfrest⟩ := hwf
      have hwfesc : wfEntries esc = true := by simpa only [wfNode] using hwfv
      obtain ⟨esc', hloopc, _, _, _, _⟩ := ihc hwfesc kc esc (fun _ h => h)
      have happ : appendF (.group kc esc .nil) oc = .ok (.group kc esc' .nil) := hloopc
      have hsetr : dictSetRaw (.group k fs .nil) nm (.group kc esc' .nil) =
          .ok (.group k (upsertE fs nm (.group kc esc' .nil)) .nil) := rfl
      have hmemfs : nm ∈ keysE fs := hsub nm (by simp [keysE])
      obtain ⟨fs', hloop, hkeys, hpt, hptg, hout⟩ := ihrest hwfrest k
        (upsertE fs nm (.group kc esc' .nil))
        (fun nm' h => by
          rw [keysE_upsert_mem fs nm _ hmemfs]
          exact hsub nm' (by simp [keysE, h]))
      refine ⟨fs', ?_, ?_, ?_, ?_, ?_⟩
      · simp only [appendLoop, hflat, if_true, hko, happ, hsetr, hloop]
      · rw [hkeys, keysE_upsert_mem fs nm _ hmemfs]
      · intro nm' dt' vals' dt2' w' hm hko'
        rcases hm with ⟨h1, h2⟩ | hm
        · exact Node.noConfusion h2
        · exact hpt nm' dt' vals' dt2' w' hm hko'
      · intro nm' kc' esc2 hc2 hm
        rcases hm with ⟨h1, h2⟩ | hm
        · subst h1
          injection h2 with hkc hesc hhc
          subst hkc
          subst hesc
          subst hhc
          exact ⟨oc, .group kc' esc' .nil, hko, happ,
            by rw [hout nm' hnotin, lookupE_upsert_self]⟩
        · exact hptg nm' kc' esc2 hc2 hm
      · intro nm' h
        rw [keysE, List.mem_cons] at h
        push_neg at h
        rw [hout nm' h.2, lookupE_upsert_ne fs nm nm' _ (fun he => h.1 he.symm)]

theorem appendLoop_no_method_fails : (es : NEntries) → (st other : Node) →
    (nm : String) → (v : Node) → noAppendMethod v = true →
    entryMem nm v es → (appendLoop es st other).isOk = false
  | .nil, _, _, _, _, _, h => h.elim
  | .cons nm' dat rest, st, other, nm, v, hnam, h => by
      rcases h with ⟨h1, h2⟩ | h
      · subst h2
        cases v with
        | arr dt vv => exact Bool.noConfusion (show false = true from hnam)
        | objArr cs => exact Bool.noConfusion (show false = true from hnam)
        | scal sv => rfl
        | opq o => rfl
        | group kc esc hc =>
            have hf : kc.flatFamily = false := by
              have hx : (!kc.flatFamily) = true := hnam
              simpa using hx
            simp only [appendLoop, hf, Bool.false_eq_true, if_false]
            rfl
      · cases dat with
        | arr dt vv =>
            cases hgo : getItemF other nm' with
            | error e => (simp only [appendLoop, hgo]; rfl)
            | ok o =>
                cases hco : concatNodes (.arr dt vv) o with
                | error e => (simp only [appendLoop, hgo, hco]; rfl)
                | ok c =>
                    cases hso : setItemF st nm' c with
                    | error e => (simp only [appendLoop, hgo, hco, hso]; rfl)
                    | ok st' =>
                        simp only [appendLoop, hgo, hco, hso]
                        exact appendLoop_no_method_fails rest st' other nm v hnam h
        | objArr cs =>
            cases hgo : getItemF other nm' with
            | error e => (simp only [appendLoop, hgo]; rfl)
            | ok o =>
                cases hco : concatNodes (.objArr cs) o with
                | error e => (simp only [appendLoop, hgo, hco]; rfl)
                | ok c =>
                    cases hso : setItemF st nm' c with
                    | error e => (simp only [appendLoop, hgo, hco, hso]; rfl)
                    | ok st' =>
                        simp only [appendLoop, hgo, hco, hso]
                        exact appendLoop_no_method_fails rest st' other nm v hnam h
        | group kc esc hc =>
            by_cases hf : kc.flatFamily = true
            · cases hgo : getItemF other nm' with
              | error e => (simp only [appendLoop, hf, hgo]; rfl)
              | ok o =>
                  cases hap : appendF (.group kc esc hc) o with
                  | error e => (simp only [appendLoop, hf, hgo, hap]; rfl)
                  | ok child' =>
                      cases hso : dictSetRaw st nm' child' with
                      | error e => (simp only [appendLoop, hf, hgo, hap, hso]; rfl)
                      | ok st' =>
                          simp only [appendLoop, hf, if_true, hgo, hap, hso]
                          exact appendLoop_no_method_fails rest st' other nm v hnam h
            · (simp only [appendLoop, hf]; rfl)
        | scal s2 => rfl
        | opq o => rfl

/-- C3 (corrected): `flat.append` concatenates array fields along axis 0
and recurses into flat-family child Groups (first conjunct: under the
`Appendable` shape hypothesis — every receiver field is an array with an
array counterpart in `other`, or a transient-free flat-family child Group
recursively appendable to its counterpart — the operation succeeds, every
array field becomes the concatenation with its counterpart, and every
child Group becomes the successful recursive append with its counterpart);
but the claim's error contract is wrong: the code never compares non-array
values at all — ANY field with no `append` method (a native scalar, an
opaque value, or a non-flat container child), equal-valued or not, aborts
the operation with AttributeError (src/base.py:391-397), so no
`PropertyMismatchError` semantics exists (second conjunct). -/
theorem c3_append (kk : KCls) :
    (∀ (es : NEntries) (other : Node),
       kk.flatFamily = true → wfEntries es = true → Appendable es other →
       ∃ es', appendF (.group kk es .nil) other = .ok (.group kk es' .nil) ∧
         keysE es' = keysE es ∧
         (∀ nm dt vals dt2 w, entryMem nm (.arr dt vals) es →
            getItemF other nm = .ok (.arr dt2 w) →
            lookupE es' nm = some (.arr dt (vals ++ w))) ∧
         (∀ nm kc esc hc, entryMem nm (.group kc esc hc) es →
            ∃ oc res, getItemF other nm = .ok oc ∧
              appendF (.group kc esc hc) oc = .ok res ∧
              lookupE es' nm = some res)) ∧
    (∀ (es hid : NEntries) (other : Node) (nm : String) (v : Node),
       noAppendMethod v = true → entryMem nm v es →
       (appendF (.group kk es hid) other).isOk = false) := by
  constructor
  · intro es other _ hwf hap
    obtain ⟨fs', hloop, hkeys, hpt, hptg, _⟩ :=
      appendLoop_ok es other hap hwf kk es (fun _ h => h)
    exact ⟨fs', hloop, hkeys, hpt, hptg⟩
  · intro es hid other nm v hnam hm
    exact appendLoop_no_method_fails es (.group kk es hid) other nm v hnam hm

/-- C3 counterexample: two flat groups with `time` arrays and an
EQUAL-VALUED scalar property `name = "siteA"` on both sides.  The claim
(with its spec source "non-array scalar property fields must compare equal
... or the operation fails") implies this append succeeds and concatenates
`time`; the code raises AttributeError because a Python string has no
`append` method — no value comparison ever happens. -/
theorem c3_counterexample :
    appendF (.group .flat (.cons "time" (.arr "i8" [0, 1, 2])
        (.cons "name" (.scal (.s "siteA")) .nil)) .nil)
      (.group .flat (.cons "time" (.arr "i8" [3, 4])
        (.cons "name" (.scal (.s "siteA")) .nil)) .nil) =
      .error .attributeError := rfl

/-- Witness for C3: the success part at two concrete time-series groups
each holding a `time` array and a nested flat child `sub`, and the failure
part at a group holding a native-scalar property. -/
theorem c3_append_witness :
    (KCls.flat.flatFamily = true ∧
     wfEntries (NEntries.cons "time" (.arr "i8" [0, 1, 2])
       (.cons "sub" (.group .flat (.cons "u" (.arr "f8" [1]) .nil) .nil) .nil)) = true ∧
     Appendable (NEntries.cons "time" (.arr "i8" [0, 1, 2])
         (.cons "sub" (.group .flat (.cons "u" (.arr "f8" [1]) .nil) .nil) .nil))
       (.group .flat (.cons "time" (.arr "i8" [3, 4])
         (.cons "sub" (.group .flat (.cons "u" (.arr "f8" [2, 3]) .nil) .nil) .nil)) .nil) ∧
     (∃ es', appendF (.group .flat (.cons "time" (.arr "i8" [0, 1, 2])
           (.cons "sub" (.group .flat (.cons "u" (.arr "f8" [1]) .nil) .nil) .nil)) .nil)
         (.group .flat (.cons "time" (.arr "i8" [3, 4])
           (.cons "sub" (.group .flat (.cons "u" (.arr "f8" [2, 3]) .nil) .nil) .nil)) .nil) =
         .ok (.group .flat es' .nil) ∧
       keysE es' = keysE (NEntries.cons "time" (.arr "i8" [0, 1, 2])
         (.cons "sub" (.group .flat (.cons "u" (.arr "f8" [1]) .nil) .nil) .nil)) ∧
       (∀ nm dt vals dt2 w,
          entryMem nm (.arr dt vals) (NEntries.cons "time" (.arr "i8" [0, 1, 2])
            (.cons "sub" (.group .flat (.cons "u" (.arr "f8" [1]) .nil) .nil) .nil)) →
          getItemF (.group .flat (.cons "time" (.arr "i8" [3, 4])
            (.cons "sub" (.group .flat (.cons "u" (.arr "f8" [2, 3]) .nil) .nil) .nil)) .nil)
            nm = .ok (.arr dt2 w) →
          lookupE es' nm = some (.arr dt (vals ++ w))) ∧
       (∀ nm kc esc hc,
          entryMem nm (.group kc esc hc) (NEntries.cons "time" (.arr "i8" [0, 1, 2])
            (.cons "sub" (.group .flat (.cons "u" (.arr "f8" [1]) .nil) .nil) .nil)) →
          ∃ oc res, getItemF (.group .flat (.cons "time" (.arr "i8" [3, 4])
              (.cons "sub" (.group .flat (.cons "u" (.arr "f8" [2, 3]) .nil) .nil) .nil)) .nil)
              nm = .ok oc ∧
            appendF (.group kc esc hc) oc = .ok res ∧
            lookupE es' nm = some res))) ∧
    noAppendMethod (Node.scal (.s "siteA")) = true ∧
    (appendF (.group .flat (.cons "n" (.scal (.s "siteA")) .nil) .nil)
      (.group .flat (.cons "n" (.scal (.s "siteA")) .nil) .nil)).isOk = false := by
  have h1 : getItemF (.group .flat (.cons "time" (.arr "i8" [3, 4])
      (.cons "sub" (.group .flat (.cons "u" (.arr "f8" [2, 3]) .nil) .nil) .nil)) .nil)
      "time" = .ok (.arr "i8" [3, 4]) := by rfl
  have h3 : getItemF (.group .flat (.cons "time" (.arr "i8" [3, 4])
      (.cons "sub" (.group .flat (.cons "u" (.arr "f8" [2, 3]) .nil) .nil) .nil)) .nil)
      "sub" = .ok (.group .flat (.cons "u" (.arr "f8" [2, 3]) .nil) .nil) := by rfl
  have h4 : getItemF (.group .flat (.cons "u" (.arr "f8" [2, 3]) .nil) .nil) "u" =
      .ok (.arr "f8" [2, 3]) := by rfl
  have hap : Appendable (NEntries.cons "time" (.arr "i8" [0, 1, 2])
        (.cons "sub" (.group .flat (.cons "u" (.arr "f8" [1]) .nil) .nil) .nil))
      (.group .flat (.cons "time" (.arr "i8" [3, 4])
        (.cons "sub" (.group .flat (.cons "u" (.arr "f8" [2, 3]) .nil) .nil) .nil)) .nil) :=
    .consArr h1 (.consFlat (by rfl) h3 (.consArr h4 (.nil _)) (.nil _))
  exact ⟨⟨rfl, rfl, hap, (c3_append .flat).1 _ _ (by rfl) (by rfl) hap⟩, rfl,
    (c3_append .flat).2 _ .nil _ "n" (.scal (.s "siteA")) (by rfl) (Or.inl ⟨rfl, rfl⟩)⟩

/-! ## C7: subset -/

theorem keysE_subsetArrOnly_sub : (es : NEntries) → (i : Idx) → (nm : String) →
    nm ∈ keysE (subsetArrOnly i es) → nm ∈ keysE es
  | .nil, _, _, h => by simp [subsetArrOnly, keysE] at h
  | .cons nm' v rest, i, nm, h => by
      rw [keysE, List.mem_cons]
      cases v with
      | arr dt vals =>
          rw [show subsetArrOnly i (.cons nm' (.arr dt vals) rest) =
              .cons nm' (.arr dt (applySlice i vals)) (subsetArrOnly i rest) from rfl,
            keysE, List.mem_cons] at h
          rcases h with h | h
          · exact Or.inl h
          · exact Or.inr (keysE_subsetArrOnly_sub rest i nm h)
      | objArr cs => exact Or.inr (keysE_subsetArrOnly_sub rest i nm h)
      | scal sv => exact Or.inr (keysE_subsetArrOnly_sub rest i nm h)
      | opq o => exact Or.inr (keysE_subsetArrOnly_sub rest i nm h)
      | group kc es2 h2 => exact Or.inr (keysE_subsetArrOnly_sub rest i nm h)

theorem lookupE_subsetArrOnly_arr : (es : NEntries) → (i : Idx) → (nm : String) →
    (dt : String) → (vals : List Int) →
    wfEntries es = true → entryMem nm (.arr dt vals) es →
    lookupE (subsetArrOnly i es) nm = some (.arr dt (applySlice i vals))
  | .nil, _, _, _, _, _, h => h.elim
  | .cons nm' v rest, i, nm, dt, vals, hwf, h => by
      rw [wfEntries_cons_iff] at hwf
      rcases h with ⟨h1, h2⟩ | h
      · subst h1
        rw [← h2]
        rw [show subsetArrOnly i (.cons nm (.arr dt vals) rest) =
            .cons nm (.arr dt (applySlice i vals)) (subsetArrOnly i rest) from rfl,
          lookupE, if_pos rfl]
      · have hne : ¬ nm' = nm := fun he =>
          hwf.2.2.1 (he ▸ entryMem_keys rest nm _ h)
        have ih := lookupE_subsetArrOnly_arr rest i nm dt vals hwf.2.2.2.2 h
        cases v with
        | arr dt0 vals0 =>
            rw [show subsetArrOnly i (.cons nm' (.arr dt0 vals0) rest) =
                .cons nm' (.arr dt0 (applySlice i vals0)) (subsetArrOnly i rest) from rfl,
              lookupE, if_neg hne]
            exact ih
        | objArr cs => exact ih
        | scal sv => exact ih
        | opq o => exact ih
        | group kc es2 h2 => exact ih

theorem lookupE_subsetArrOnly_group : (es : NEntries) → (i : Idx) → (nm : String) →
    (kc : KCls) → (es2 h2 : NEntries) →
    wfEntries es = true → entryMem nm (.group kc es2 h2) es →
    lookupE (subsetArrOnly i es) nm = none
  | .nil, _, _, _, _, _, _, h => h.elim
  | .cons nm' v rest, i, nm, kc, es2, h2, hwf, h => by
      rw [wfEntries_cons_iff] at hwf
      rcases h with ⟨h1, hv⟩ | h
      · subst h1
        rw [← hv]
        show lookupE (subsetArrOnly i rest) nm = none
        apply lookupE_eq_none
        intro hm
        exact hwf.2.2.1 (keysE_subsetArrOnly_sub rest i nm hm)
      · have hne : ¬ nm' = nm := fun he =>
          hwf.2.2.1 (he ▸ entryMem_keys rest nm _ h)
        have ih := lookupE_subsetArrOnly_group rest i nm kc es2 h2 hwf.2.2.2.2 h
        cases v with
        | arr dt0 vals0 =>
            rw [show subsetArrOnly i (.cons nm' (.arr dt0 vals0) rest) =
                .cons nm' (.arr dt0 (applySlice i vals0)) (subsetArrOnly i rest) from rfl,
              lookupE, if_neg hne]
            exact ih
        | objArr cs => exact ih
        | scal sv => exact ih
        | opq o => exact ih
        | group kc0 esc0 hc0 => exact ih

theorem subsetLoop_mixed : (es : NEntries) → (k : KCls) → (acc : NEntries) → (i : Idx) →
    wfEntries es = true →
    (∀ nm v, entryMem nm v es →
       (∃ dt vals, v = .arr dt vals) ∨
       (∃ kc es2 h2, v = .group kc es2 h2 ∧ kc.flatFamily = false)) →
    (∀ nm, nm ∈ keysE es → nm ∉ keysE acc) →
    subsetLoop es (.group k acc .nil) i [] =
      .ok (.group k (appE acc (subsetArrOnly i es)) .nil)
  | .nil, k, acc, i, _, _, _ => by
      simp only [subsetLoop, subsetArrOnly, appE_nil]
  | .cons nm v rest, k, acc, i, hwf, hsh, hdisj => by
      rw [wfEntries_cons_iff] at hwf
      obtain ⟨hdot, hres, hnotin, _, hwfrest⟩ := hwf
      have hmemhd : nm ∈ keysE (NEntries.cons nm v rest) := by simp [keysE]
      rcases hsh nm v (Or.inl ⟨rfl, rfl⟩) with ⟨dt, vals, hv⟩ | ⟨kc, es2, h2, hv, hflat⟩
      · subst hv
        have hset : setItemF (.group k acc .nil) nm (.arr dt (applySlice i vals)) =
            .ok (.group k (appE acc (.cons nm (.arr dt (applySlice i vals)) .nil)) .nil) := by
          have hrs : rsplitDot nm = none := by
            simp only [rsplitDot, hdot, Bool.false_eq_true, if_false]
          have hnd : nm ∉ dirOfAny (.group k acc (.nil : NEntries)) := by
            simp only [dirOfAny, keysE, List.append_nil]
            intro hmem
            exact hres (clsDir_sub_allReserved k nm hmem)
          simp only [setItemF, setTarget, hrs, if_neg hnd, updateAt, dictSetRaw]
          rw [upsertE_notmem acc nm _ (hdisj nm hmemhd)]
        have hdisj' : ∀ m, m ∈ keysE rest →
            m ∉ keysE (appE acc (.cons nm (.arr dt (applySlice i vals)) .nil)) := by
          intro m hm
          rw [keysE_appE]
          simp only [keysE, List.mem_append, List.mem_cons, List.not_mem_nil, or_false]
          push_neg
          exact ⟨hdisj m (by simp [keysE, hm]), fun hmn => hnotin (hmn ▸ hm)⟩
        have ihrec := subsetLoop_mixed rest k
          (appE acc (.cons nm (.arr dt (applySlice i vals)) .nil)) i hwfrest
          (fun nm' v' h => hsh nm' v' (Or.inr h)) hdisj'
        simp only [subsetLoop, hset, ihrec]
        rw [show subsetArrOnly i (.cons nm (.arr dt vals) rest) =
            .cons nm (.arr dt (applySlice i vals)) (subsetArrOnly i rest) from rfl]
        rw [appE_assoc]
        simp only [appE]
      · subst hv
        have ihrec := subsetLoop_mixed rest k acc i hwfrest
          (fun nm' v' h => hsh nm' v' (Or.inr h))
          (fun m hm => hdisj m (by simp [keysE, hm]))
        rw [show subsetArrOnly i (.cons nm (.group kc es2 h2) rest) =
            subsetArrOnly i rest from rfl]
        simp only [subsetLoop, kwLookup, hflat, Bool.false_eq_true, if_false, ihrec]

/-- C7 (corrected): `flat.subset(slice(0, 5))` on a homogeneous group with
length-10 array leaves returns a NEW group of the same concrete subclass
(the receiver itself is untouched — the result is built in a fresh
instance, src/base.py:417), every array leaf of the result has length 5;
but container children that are not `flat` and carry no explicit per-child
index are NOT left in the result as the claim states: the commented-out
`else` branch of src/base.py:424-425 means they are silently OMITTED from
the result. -/
theorem c7_subset (k : KCls) (es hid : NEntries)
    (hk : k.flatFamily = true)
    (hwf : wfEntries es = true)
    (hsh : ∀ nm v, entryMem nm v es →
       (∃ dt vals, v = .arr dt vals ∧ vals.length = 10) ∨
       (∃ kc es2 h2, v = .group kc es2 h2 ∧ kc.flatFamily = false)) :
    subsetF (.group k es hid) (.islice 0 5) [] =
      .ok (.group k (subsetArrOnly (.islice 0 5) es) .nil) ∧
    (∀ nm dt vals, entryMem nm (.arr dt vals) es → vals.length = 10 →
       lookupE (subsetArrOnly (.islice 0 5) es) nm =
         some (.arr dt (applySlice (.islice 0 5) vals)) ∧
       (applySlice (.islice 0 5) vals).length = 5) ∧
    (∀ nm kc es2 h2, entryMem nm (.group kc es2 h2) es →
       lookupE (subsetArrOnly (.islice 0 5) es) nm = none) := by
  refine ⟨?_, ?_, ?_⟩
  · have hsh' : ∀ nm v, entryMem nm v es →
        (∃ dt vals, v = .arr dt vals) ∨
        (∃ kc es2 h2, v = .group kc es2 h2 ∧ kc.flatFamily = false) := by
      intro nm v h
      rcases hsh nm v h with ⟨dt, vals, hv, _⟩ | h
      · exact Or.inl ⟨dt, vals, hv⟩
      · exact Or.inr h
    have := subsetLoop_mixed es k .nil (.islice 0 5) hwf hsh' (fun nm _ => by simp [keysE])
    simp only [subsetF, this]
    rfl
  · intro nm dt vals hm h10
    refine ⟨lookupE_subsetArrOnly_arr es _ nm dt vals hwf hm, ?_⟩
    simp [applySlice, List.length_take, h10]
  · intro nm kc es2 h2 hm
    exact lookupE_subsetArrOnly_group es _ nm kc es2 h2 hwf hm

/-- C7 counterexample: a flat group with an array leaf `u` of length 10
and a non-flat container child `d`.  `subset(slice(0, 5))` produces a
group with ONLY `u` — the child `d` is absent, refuting the claim that
Group-typed children without an explicit per-child index are left in the
result as they are in the receiver. -/
theorem c7_counterexample :
    subsetF (.group .flat (.cons "u" (.arr "f8" [0, 1, 2, 3, 4, 5, 6, 7, 8, 9])
        (.cons "d" (.group .data (.cons "x" (.scal (.i 5)) .nil) .nil) .nil)) .nil)
      (.islice 0 5) [] =
      .ok (.group .flat (.cons "u" (.arr "f8" [0, 1, 2, 3, 4]) .nil) .nil) := rfl

/-- Witness for C7 at a concrete group with a length-10 array and a
non-flat container child. -/
theorem c7_subset_witness :
    KCls.flatFamily .flat = true ∧
    wfEntries (NEntries.cons "u" (.arr "f8" [0, 1, 2, 3, 4, 5, 6, 7, 8, 9])
      (.cons "d" (.group .data .nil .nil) .nil)) = true ∧
    (subsetF (.group .flat (NEntries.cons "u" (.arr "f8" [0, 1, 2, 3, 4, 5, 6, 7, 8, 9])
        (.cons "d" (.group .data .nil .nil) .nil)) .nil) (.islice 0 5) [] =
      .ok (.group .flat (subsetArrOnly (.islice 0 5)
        (NEntries.cons "u" (.arr "f8" [0, 1, 2, 3, 4, 5, 6, 7, 8, 9])
          (.cons "d" (.group .data .nil .nil) .nil))) .nil) ∧
    (∀ nm dt vals, entryMem nm (.arr dt vals)
        (NEntries.cons "u" (.arr "f8" [0, 1, 2, 3, 4, 5, 6, 7, 8, 9])
          (.cons "d" (.group .data .nil .nil) .nil)) → vals.length = 10 →
       lookupE (subsetArrOnly (.islice 0 5)
         (NEntries.cons "u" (.arr "f8" [0, 1, 2, 3, 4, 5, 6, 7, 8, 9])
           (.cons "d" (.group .data .nil .nil) .nil))) nm =
         some (.arr dt (applySlice (.islice 0 5) vals)) ∧
       (applySlice (.islice 0 5) vals).length = 5) ∧
    (∀ nm kc es2 h2, entryMem nm (.group kc es2 h2)
        (NEntries.cons "u" (.arr "f8" [0, 1, 2, 3, 4, 5, 6, 7, 8, 9])
          (.cons "d" (.group .data .nil .nil) .nil)) →
       lookupE (subsetArrOnly (.islice 0 5)
         (NEntries.cons "u" (.arr "f8" [0, 1, 2, 3, 4, 5, 6, 7, 8, 9])
           (.cons "d" (.group .data .nil .nil) .nil))) nm = none)) :=
  ⟨by decide, by rfl,
    c7_subset .flat _ .nil (by decide) (by rfl)
      (fun nm v h => by
        rcases h with ⟨h1, h2⟩ | ⟨h1, h2⟩ | h
        · exact Or.inl ⟨"f8", [0, 1, 2, 3, 4, 5, 6, 7, 8, 9], h2, by decide⟩
        · exact Or.inr ⟨.data, .nil, .nil, h2, by decide⟩
        · exact h.elim)⟩

end PyDictH5